import Mathlib

/-!
# Verification of the `Future` promise library (src/index.ts)

This file gives a shallow embedding of the promise implementation in
`src/index.ts`.  The source is a JavaScript/TypeScript class `Future`
(duplicated a second time as class `Bail`) implementing a promise:

* a `Future` holds `status` (one of the strings `PENDING`, `FULFILLED`,
  `REJECTED`), a `value`, and a queue `handlers` of observer pairs;
* `resolve`/`reject` call `updateResult(value, status)`, whose whole body
  runs inside `setTimeout(..., 0)`: it no-ops unless the future is still
  pending, adopts the value when it is itself a `Future`
  (`value.then(this.resolve, this.reject)`), and otherwise writes
  `value`/`status` and drains the handler queue;
* `addHandler` pushes a handler and immediately attempts delivery;
* `executeHandlers` delivers every queued handler in order (live field
  reads, mirroring the JS `forEach` over the handlers array) and then
  clears the queue;
* `then(onFulfill?, onReject?)` builds a child future whose resolver
  registers a handler pair on the parent; `catch(onReject)` is
  `then(null, onReject)`;
* static `all` and `race` are built from `then`/`catch`.

The embedding is a small-step interpreter over an explicit machine state:
the heap of future objects, the FIFO queue of `setTimeout` tasks, a store
of mutable array cells (for the `results` array captured by `Future.all`'s
callbacks), and two ghost logs used purely for observation (`vlog` records
invocations of a test logging callback, `dlog` records each delivery of a
handler, by handler id).  The ghost logs and the handler ids are
instrumentation only: no interpreter branch inspects them.

Closures are defunctionalized: `Callback` enumerates the function values
that appear in the source (the bound `resolve`/`reject` methods, the
callbacks built inside `Future.all` and `Future.race`) plus the test
callbacks used by the theorems (a constant function, a throwing function,
a logging function, and a guarded callback that calls `then` on a future,
used to exercise reentrant handler registration).  `Resolver` enumerates
the executor functions passed to the constructor, and `Call` enumerates
the operations of the class; `exec` interprets one operation, with a fuel
parameter making the (reentrant, hence not structurally terminating)
recursion explicit.
-/

namespace Promise

/-- Status of a future: the `STATUSES` table of the source
(`PENDING`, `FULFILLED`, `REJECTED`). -/
inductive Status where
  | pending
  | fulfilled
  | rejected
deriving DecidableEq

/-- Runtime values.  `fut i` is a reference to the future object with heap
index `i` (the `val instanceof Future` test of `isThenable` is a check for
this constructor); `list` is a JS array (the `results` array of
`Future.all` and values logged by tests); `exn` models a host exception
such as the `TypeError` raised when the source calls an `undefined`
rejection handler. -/
inductive Val where
  | unit
  | num (n : Int)
  | str (s : String)
  | fut (id : Nat)
  | list (vs : List Val)
  | exn (msg : String)

/-- `isThenable` of the source: `val instanceof Future`. -/
def isThenable : Val → Bool
  | .fut _ => true
  | _ => false

/-- Defunctionalized function values (the closures of the source plus the
callbacks the test theorems pass to `then`/`catch`):

* `resolveOf f` / `rejectOf f`: the bound `resolve` / `reject` method of
  future `f` (also the closures `value => res(value)` / `err => rej(err)`
  of `Future.race` and `Future.all`, which behave identically);
* `allCb agg r cnt`: the callback `(value) => { results.push(value);
  if (results.length === futuresArr.length) res(results); }` of
  `Future.all`, with `agg` the aggregate future, `r` the cell holding the
  shared `results` array and `cnt` the length of the input array;
* `const w`: a test callback returning `w`;
* `throwv e`: a test callback throwing `e`;
* `logv t`: a test callback appending `[t, argument]` to the ghost log;
* `thenOnce r target cb`: a test callback that, on its first invocation
  (guard stored in cell `r`), calls `target.then(cb)` — the JS idiom
  `let done = false; v => { if (!done) { done = true; target.then(cb) } }`,
  used to exercise a handler that registers another handler. -/
inductive Callback where
  | resolveOf (f : Nat)
  | rejectOf (f : Nat)
  | allCb (agg r cnt : Nat)
  | const (w : Val)
  | throwv (e : Val)
  | logv (t : Val)
  | thenOnce (r target : Nat) (cb : Callback)

/-- A queued observer pair, as built by `then`'s resolver:
`{ onFullfill: ..., onReject: ... }`.  `cbF`/`cbR` are the user callbacks
`onFulfill`/`onReject` captured by the pair (`none` when absent), `child`
is the future returned by `then` whose `res`/`rej` the pair captures, and
`hid` is a ghost identifier used only by the delivery log. -/
structure Handler where
  hid : Nat
  cbF : Option Callback
  cbR : Option Callback
  child : Nat

/-- One future object: the `status`/`value`/`handlers` fields. -/
structure FutureObj where
  status : Status
  value : Val
  handlers : List Handler

/-- A queued `setTimeout` callback.  The only `setTimeout` in the core is
the body of `updateResult`, captured here with its free variables. -/
inductive Task where
  | settle (f : Nat) (v : Val) (st : Status)

/-- The machine state: heap of futures, FIFO task queue, store of mutable
array cells (`refs`), ghost logs (`vlog` for the test logging callback,
`dlog` for handler deliveries) and the ghost handler-id counter. -/
structure State where
  futures : List FutureObj
  tasks : List Task
  refs : List (List Val)
  vlog : List Val
  dlog : List Nat
  nextH : Nat

/-- The empty initial state. -/
def initState : State := ⟨[], [], [], [], [], 0⟩

/-- Defunctionalized executor functions passed to `new Future(resolver)`:

* `ext`: an external resolver whose settle capabilities are retained by
  the test (`(res, rej) => { ... setTimeout(...) ... }` with the actual
  settling modelled as later `resolve`/`reject` calls);
* `thenR p cbF cbR`: the resolver built by `then`, registering a handler
  pair on parent `p`;
* `allR inputs` / `raceR inputs`: the resolvers of `Future.all` /
  `Future.race`;
* `resolveWith v` / `rejectWith v`: resolvers that synchronously call
  `res(v)` / `rej(v)`;
* `throwR v`: a resolver that throws `v`. -/
inductive Resolver where
  | ext
  | thenR (p : Nat) (cbF cbR : Option Callback)
  | allR (inputs : List Nat)
  | raceR (inputs : List Nat)
  | resolveWith (v : Val)
  | rejectWith (v : Val)
  | throwR (v : Val)

/-- The operations of the class, defunctionalized for the interpreter:

* `construct rsv`: `new Future(rsv)`;
* `thenCall p cbF cbR`: `p.then(cbF, cbR)`;
* `catchCall p cb`: `p.catch(cb)`;
* `addHandler f cbF cbR child`: `f.addHandler({onFullfill, onReject})`
  with the pair built from `cbF`/`cbR`/`child` as in `then`;
* `executeHandlers f`: `f.executeHandlers()`;
* `handlersLoop f hs`: the `forEach` loop inside `executeHandlers`, with
  `hs` the iteration snapshot;
* `runHandler h st v`: invocation of one queued pair with the (live-read)
  status and value of its future;
* `runCallback cb v`: invocation of callback `cb` on argument `v`;
* `resolve f v` / `reject f v`: the bound `resolve`/`reject` methods,
  i.e. `updateResult(v, FULFILLED/REJECTED)`, which only schedule a task;
* `allLoop self r cnt rest` / `raceLoop self rest`: the `forEach` loops
  inside the `all` / `race` resolvers;
* `settleTask t`: the deferred body of `updateResult` (run by the event
  loop, never by synchronous code). -/
inductive Call where
  | construct (rsv : Resolver)
  | thenCall (p : Nat) (cbF cbR : Option Callback)
  | catchCall (p : Nat) (cb : Option Callback)
  | addHandler (f : Nat) (cbF cbR : Option Callback) (child : Nat)
  | executeHandlers (f : Nat)
  | handlersLoop (f : Nat) (hs : List Handler)
  | runHandler (h : Handler) (st : Status) (v : Val)
  | runCallback (cb : Callback) (v : Val)
  | resolve (f : Nat) (v : Val)
  | reject (f : Nat) (v : Val)
  | allLoop (self r cnt : Nat) (rest : List Nat)
  | raceLoop (self : Nat) (rest : List Nat)
  | settleTask (t : Task)

/-- Heap read. -/
def getF (s : State) (i : Nat) : Option FutureObj := s.futures[i]?

/-- Heap write. -/
def setF (s : State) (i : Nat) (o : FutureObj) : State :=
  { s with futures := s.futures.set i o }

/-- Append a `setTimeout` task (FIFO). -/
def pushTask (s : State) (t : Task) : State :=
  { s with tasks := s.tasks ++ [t] }

/-- Read a mutable array cell. -/
def getRef (s : State) (r : Nat) : List Val := s.refs[r]?.getD []

/-- Write a mutable array cell. -/
def setRef (s : State) (r : Nat) (vs : List Val) : State :=
  { s with refs := s.refs.set r vs }

/-- Interpret one operation.  The result is `(outcome, state)`, where the
outcome is `.error e` when the operation throws `e` (only resolvers and
callbacks throw) and `.ok v` with the returned value otherwise.  `fuel`
bounds the recursion depth; at `0` the interpreter gives up and returns
the state unchanged (all theorems either use ample concrete fuel or hold
for every fuel). -/
def exec : Nat → Call → State → (Except Val Val) × State
  | 0, _, s => (.ok .unit, s)
  | n + 1, c, s =>
    match c with
    | .construct rsv =>
      -- constructor: fields are initialized, then the resolver runs in a
      -- try/catch whose catch calls this.reject(err)
      let id := s.futures.length
      let s := { s with futures := s.futures ++ [⟨.pending, .unit, []⟩] }
      let body : (Except Val Val) × State :=
        match rsv with
        | .ext => (.ok .unit, s)
        | .thenR p cbF cbR => exec n (.addHandler p cbF cbR id) s
        | .allR inputs =>
          -- const results = []  (a fresh shared array cell)
          let r := s.refs.length
          let s := { s with refs := s.refs ++ [[]] }
          exec n (.allLoop id r inputs.length inputs) s
        | .raceR inputs => exec n (.raceLoop id inputs) s
        | .resolveWith v => exec n (.resolve id v) s
        | .rejectWith v => exec n (.reject id v) s
        | .throwR v => (.error v, s)
      match body with
      | (.error e, s) =>
        let (_, s) := exec n (.reject id e) s
        (.ok (.fut id), s)
      | (.ok _, s) => (.ok (.fut id), s)
    | .thenCall p cbF cbR => exec n (.construct (.thenR p cbF cbR)) s
    | .catchCall p cb => exec n (.thenCall p none cb) s
    | .addHandler f cbF cbR child =>
      match getF s f with
      | none => (.ok .unit, s)
      | some o =>
        let h : Handler := ⟨s.nextH, cbF, cbR, child⟩
        let s := setF { s with nextH := s.nextH + 1 } f
          { o with handlers := o.handlers ++ [h] }
        exec n (.executeHandlers f) s
    | .executeHandlers f =>
      match getF s f with
      | none => (.ok .unit, s)
      | some o =>
        match o.status with
        | .pending => (.ok .unit, s)  -- do nothing while pending
        | _ =>
          let (_, s) := exec n (.handlersLoop f o.handlers) s
          -- this.handlers = []
          match getF s f with
          | none => (.ok .unit, s)
          | some o2 => (.ok .unit, setF s f { o2 with handlers := [] })
    | .handlersLoop f hs =>
      match hs with
      | [] => (.ok .unit, s)
      | h :: rest =>
        match getF s f with
        | none => (.ok .unit, s)
        | some o =>
          let (_, s) := exec n (.runHandler h o.status o.value) s
          exec n (.handlersLoop f rest) s
    | .runHandler h st v =>
      -- ghost: record the delivery of handler h
      let s := { s with dlog := s.dlog ++ [h.hid] }
      match st with
      | .pending => (.ok .unit, s)
      | .fulfilled =>
        -- onFullfill: (value) => { if (!onFulfill) return res(value);
        --   try { return res(onFulfill(value)) } catch (err) { return rej(err) } }
        match h.cbF with
        | none => exec n (.resolve h.child v) s
        | some cb =>
          match exec n (.runCallback cb v) s with
          | (.ok rv, s) => exec n (.resolve h.child rv) s
          | (.error e, s) => exec n (.reject h.child e) s
      | .rejected =>
        -- onReject: (value) => { if (!onReject) { rej(value); }   (no return!)
        --   try { return rej(onReject(value)) } catch (err) { return rej(err) } }
        match h.cbR with
        | none =>
          let (_, s) := exec n (.reject h.child v) s
          -- falls through: onReject(value) with onReject undefined throws a
          -- TypeError, caught by the try/catch, which calls rej(err)
          exec n (.reject h.child (.exn "TypeError")) s
        | some cb =>
          match exec n (.runCallback cb v) s with
          | (.ok rv, s) => exec n (.reject h.child rv) s
          | (.error e, s) => exec n (.reject h.child e) s
    | .runCallback cb v =>
      match cb with
      | .resolveOf f => exec n (.resolve f v) s
      | .rejectOf f => exec n (.reject f v) s
      | .allCb agg r cnt =>
        -- results.push(value); if (results.length === futuresArr.length) res(results)
        let rs := getRef s r ++ [v]
        let s := setRef s r rs
        if rs.length = cnt then
          let (_, s) := exec n (.resolve agg (.list rs)) s
          (.ok .unit, s)
        else (.ok .unit, s)
      | .const w => (.ok w, s)
      | .throwv e => (.error e, s)
      | .logv t => (.ok .unit, { s with vlog := s.vlog ++ [.list [t, v]] })
      | .thenOnce r target cb2 =>
        match getRef s r with
        | [] =>
          let s := setRef s r [.unit]
          let (_, s) := exec n (.thenCall target (some cb2) none) s
          (.ok .unit, s)
        | _ :: _ => (.ok .unit, s)
    | .resolve f v =>
      -- updateResult(v, FULFILLED): the whole body is inside setTimeout
      (.ok .unit, pushTask s (.settle f v .fulfilled))
    | .reject f v =>
      (.ok .unit, pushTask s (.settle f v .rejected))
    | .allLoop self r cnt rest =>
      match rest with
      | [] => (.ok .unit, s)
      | i :: rest' =>
        -- future.then(value => {...}).catch(err => rej(err))
        let (res1, s) := exec n (.thenCall i (some (.allCb self r cnt)) none) s
        let s :=
          match res1 with
          | .ok (.fut c1) => (exec n (.catchCall c1 (some (.rejectOf self))) s).2
          | _ => s
        exec n (.allLoop self r cnt rest') s
    | .raceLoop self rest =>
      match rest with
      | [] => (.ok .unit, s)
      | i :: rest' =>
        -- future.then(value => res(value)).catch(err => rej(err))
        let (res1, s) := exec n (.thenCall i (some (.resolveOf self)) none) s
        let s :=
          match res1 with
          | .ok (.fut c1) => (exec n (.catchCall c1 (some (.rejectOf self))) s).2
          | _ => s
        exec n (.raceLoop self rest') s
    | .settleTask (.settle f v st) =>
      match getF s f with
      | none => (.ok .unit, s)
      | some o =>
        match o.status with
        | .pending =>
          if isThenable v then
            -- return value.then(this.resolve, this.reject)
            match v with
            | .fut b => exec n (.thenCall b (some (.resolveOf f)) (some (.rejectOf f))) s
            | _ => (.ok .unit, s)
          else
            -- this.value = value; this.status = status; this.executeHandlers()
            let s := setF s f { o with value := v, status := st }
            exec n (.executeHandlers f) s
        | _ => (.ok .unit, s)  -- if promise is already resolved - do nothing

/-- The host event loop: repeatedly dequeue the oldest task and run it
(with recursion depth `fuel`), for at most `steps` tasks. -/
def drainWith (fuel : Nat) : Nat → State → State
  | 0, s => s
  | n + 1, s =>
    match s.tasks with
    | [] => s
    | t :: rest => drainWith fuel n (exec fuel (.settleTask t) { s with tasks := rest }).2

/-- The host event loop run to quiescence, with `n` bounding both the
number of tasks processed and the per-task recursion depth. -/
def drain (n : Nat) (s : State) : State := drainWith n n s

/-- Run a synchronous call with the given fuel, keeping only the state. -/
def doCall (fuel : Nat) (c : Call) (s : State) : State := (exec fuel c s).2

/-- The status and value of future `i` in state `s` (the observable part of
the object apart from the handler queue). -/
def statusValueAt (s : State) (i : Nat) : Option (Status × Val) :=
  (getF s i).map fun o => (o.status, o.value)

/-- `s'` preserves every settled future of `s`: any future that is already
fulfilled or rejected in `s` has the same status and value in `s'`. -/
def preservesSettled (s s' : State) : Prop :=
  ∀ i st v, statusValueAt s i = some (st, v) → st ≠ .pending →
    statusValueAt s' i = some (st, v)

/-- `s'` preserves the status and value of every future of `s`, settled or
pending (no settlement became observable between `s` and `s'`). -/
def preservesStatusValue (s s' : State) : Prop :=
  ∀ i p, statusValueAt s i = some p → statusValueAt s' i = some p

/-- Calls that synchronous user code can make: everything except the
deferred `setTimeout` body (`settleTask`), which only the event loop
(`drain`) runs. -/
def SyncCall : Call → Prop := fun c => ∀ t, c ≠ .settleTask t

/-- No settled future holds a thenable (a `Future`) as its value: the
settling branch of `updateResult` is only reached for non-thenable values,
so a rejected future's reason and a fulfilled future's value are never
themselves futures. -/
def settledNotThenable (s : State) : Prop :=
  ∀ i st v, statusValueAt s i = some (st, v) → st ≠ .pending → isThenable v = false

/-- The status/value change a synchronous operation can make: every future
of `s` keeps its status and value in `s'` exactly, and any future new in
`s'` is a freshly constructed pending one. -/
def syncDelta (s s' : State) : Prop :=
  ∀ i, statusValueAt s' i = statusValueAt s i ∨
    (statusValueAt s i = none ∧ statusValueAt s' i = some (.pending, .unit))

/-! ## Scenario states used by the claim theorems -/

/-- Three externally controlled pending futures `0`, `1`, `2`. -/
def threeExt : State :=
  doCall 10 (.construct .ext) (doCall 10 (.construct .ext)
    (doCall 10 (.construct .ext) initState))

/-- One externally controlled pending future `0`. -/
def oneExt : State := doCall 10 (.construct .ext) initState

/-- Two externally controlled pending futures `0`, `1`. -/
def twoExt : State := doCall 10 (.construct .ext) (doCall 10 (.construct .ext) initState)

/-- A state whose only future (index `0`) is settled with the given status
and value, with an empty handler queue and an idle event loop: the
canonical quiescent state of a settled future. -/
def settledOne (st : Status) (v : Val) : State := ⟨[⟨st, v, []⟩], [], [], [], [], 0⟩

/-- `Future.all([0, 1, 2])` over the three external futures.  Heap layout:
`0,1,2` the inputs, `3` the aggregate, and for each input `i` the `then`
child `4 + 2i` and its `catch` child `5 + 2i`. -/
def allS3 : State := doCall 30 (.construct (.allR [0, 1, 2])) threeExt

/-- `Future.race([0, 1])` over two external futures.  Heap layout: `0,1`
the inputs, `2` the aggregate, `3`/`4` the `then`/`catch` children of
input `0`, `5`/`6` those of input `1`. -/
def raceS2 : State := doCall 30 (.construct (.raceR [0, 1])) twoExt

/-- Settle future `f` as fulfilled with `v` in its own event-loop turn:
call `resolve` and let the event loop run to quiescence. -/
def fulfillTurn (f : Nat) (v : Val) (s : State) : State :=
  drain 40 (doCall 10 (.resolve f v) s)

/-- Settle future `f` as rejected with `v` in its own event-loop turn. -/
def rejectTurn (f : Nat) (v : Val) (s : State) : State :=
  drain 40 (doCall 10 (.reject f v) s)

/-- Start state for the reentrant-handler counterexample: one externally
controlled pending future (index `0`) and one empty array cell (index `0`,
the `done` guard of the reentrant callback). -/
def reentrantStart : State := ⟨[⟨.pending, .unit, []⟩], [], [[]], [], [], 0⟩

/-- Run the three inputs of `allS3` to fulfillment in the completion order
given by `p`, input `i` fulfilling with the number `i + 1`, each in its
own event-loop turn. -/
def allRunOrder (p : List Nat) : State :=
  p.foldl (fun s i => fulfillTurn i (.num (Int.ofNat (i + 1))) s) allS3

/-! ### Payload renamings

The interpreter never inspects the numeric and string payloads carried by
`Val.num` and `Val.str` — they are only stored, passed to callbacks and
compared for nothing.  A *renaming* maps those payloads pointwise; the
theorem `exec_ren` below shows the interpreter commutes with any
renaming.  This turns every concrete scenario computation into a theorem
about arbitrary payloads. -/

/-- A payload renaming: a map on numeric payloads and one on string
payloads. -/
structure Ren where
  fn : Int → Int
  fs : String → String

mutual

/-- Apply a renaming to a value.  `exn` payloads are kept fixed: the
interpreter itself produces `exn "TypeError"`, which a renaming must
preserve. -/
def renVal (ρ : Ren) : Val → Val
  | .unit => .unit
  | .num k => .num (ρ.fn k)
  | .str a => .str (ρ.fs a)
  | .fut i => .fut i
  | .list vs => .list (renVals ρ vs)
  | .exn m => .exn m

/-- Apply a renaming to each element of a list of values. -/
def renVals (ρ : Ren) : List Val → List Val
  | [] => []
  | v :: vs => renVal ρ v :: renVals ρ vs

end

/-- Apply a renaming to the values captured by a callback. -/
def renCallback (ρ : Ren) : Callback → Callback
  | .resolveOf f => .resolveOf f
  | .rejectOf f => .rejectOf f
  | .allCb agg r cnt => .allCb agg r cnt
  | .const w => .const (renVal ρ w)
  | .throwv e => .throwv (renVal ρ e)
  | .logv t => .logv (renVal ρ t)
  | .thenOnce r target cb => .thenOnce r target (renCallback ρ cb)

/-- Apply a renaming to a handler pair. -/
def renHandler (ρ : Ren) (h : Handler) : Handler :=
  ⟨h.hid, h.cbF.map (renCallback ρ), h.cbR.map (renCallback ρ), h.child⟩

/-- Apply a renaming to a future object. -/
def renObj (ρ : Ren) (o : FutureObj) : FutureObj :=
  ⟨o.status, renVal ρ o.value, o.handlers.map (renHandler ρ)⟩

/-- Apply a renaming to a queued task. -/
def renTask (ρ : Ren) : Task → Task
  | .settle f v st => .settle f (renVal ρ v) st

/-- Apply a renaming to a whole machine state. -/
def renState (ρ : Ren) (s : State) : State :=
  ⟨s.futures.map (renObj ρ), s.tasks.map (renTask ρ),
   s.refs.map (renVals ρ), s.vlog.map (renVal ρ), s.dlog, s.nextH⟩

/-- Apply a renaming to a resolver. -/
def renResolver (ρ : Ren) : Resolver → Resolver
  | .ext => .ext
  | .thenR p cbF cbR => .thenR p (cbF.map (renCallback ρ)) (cbR.map (renCallback ρ))
  | .allR inputs => .allR inputs
  | .raceR inputs => .raceR inputs
  | .resolveWith v => .resolveWith (renVal ρ v)
  | .rejectWith v => .rejectWith (renVal ρ v)
  | .throwR v => .throwR (renVal ρ v)

/-- Apply a renaming to an operation. -/
def renCall (ρ : Ren) : Call → Call
  | .construct rsv => .construct (renResolver ρ rsv)
  | .thenCall p cbF cbR => .thenCall p (cbF.map (renCallback ρ)) (cbR.map (renCallback ρ))
  | .catchCall p cb => .catchCall p (cb.map (renCallback ρ))
  | .addHandler f cbF cbR child =>
    .addHandler f (cbF.map (renCallback ρ)) (cbR.map (renCallback ρ)) child
  | .executeHandlers f => .executeHandlers f
  | .handlersLoop f hs => .handlersLoop f (hs.map (renHandler ρ))
  | .runHandler h st v => .runHandler (renHandler ρ h) st (renVal ρ v)
  | .runCallback cb v => .runCallback (renCallback ρ cb) (renVal ρ v)
  | .resolve f v => .resolve f (renVal ρ v)
  | .reject f v => .reject f (renVal ρ v)
  | .allLoop self r cnt rest => .allLoop self r cnt rest
  | .raceLoop self rest => .raceLoop self rest
  | .settleTask t => .settleTask (renTask ρ t)

/-- Apply a renaming to an operation outcome. -/
def renRes (ρ : Ren) : Except Val Val → Except Val Val
  | .ok v => .ok (renVal ρ v)
  | .error e => .error (renVal ρ e)

/-! ### The duplicated class `Bail`

The source contains a second class, `Bail`, whose body is token-identical
to `Future` except for the class name (so `isThenable` tests
`val instanceof Bail`) and one extra class-field initializer,
`status = 'Pending'` — a string literal distinct from the `'PENDING'`
entry of the `STATUSES` table.  The field initializer runs first, and the
constructor body then reassigns all three fields before any other code can
run, so the `'Pending'` value is dead.  The embedding keeps the extra
literal as a fourth status constructor `pendingLit` and models the
two-phase initialization in `bexec`'s `construct` case; everything else is
a verbatim duplicate of the `Future` definitions. -/

/-- Status of a `Bail`: the three `STATUSES` entries plus the dead
`'Pending'` string-literal value of the class-field initializer. -/
inductive BStatus where
  | pendingLit
  | pending
  | fulfilled
  | rejected
deriving DecidableEq

/-- One `Bail` object: the `status`/`value`/`handlers` fields. -/
structure BFutureObj where
  status : BStatus
  value : Val
  handlers : List Handler

/-- A queued `setTimeout` task of the `Bail` core. -/
inductive BTask where
  | settle (f : Nat) (v : Val) (st : BStatus)

/-- The machine state for `Bail` programs (same shape as `State`, with
`Bail` objects and tasks). -/
structure BState where
  futures : List BFutureObj
  tasks : List BTask
  refs : List (List Val)
  vlog : List Val
  dlog : List Nat
  nextH : Nat

/-- The empty initial `Bail` state. -/
def binitState : BState := ⟨[], [], [], [], [], 0⟩

/-- The operations of class `Bail`, mirroring `Call`. -/
inductive BCall where
  | construct (rsv : Resolver)
  | thenCall (p : Nat) (cbF cbR : Option Callback)
  | catchCall (p : Nat) (cb : Option Callback)
  | addHandler (f : Nat) (cbF cbR : Option Callback) (child : Nat)
  | executeHandlers (f : Nat)
  | handlersLoop (f : Nat) (hs : List Handler)
  | runHandler (h : Handler) (st : BStatus) (v : Val)
  | runCallback (cb : Callback) (v : Val)
  | resolve (f : Nat) (v : Val)
  | reject (f : Nat) (v : Val)
  | allLoop (self r cnt : Nat) (rest : List Nat)
  | raceLoop (self : Nat) (rest : List Nat)
  | settleTask (t : BTask)

/-- Heap read (`Bail`). -/
def bgetF (s : BState) (i : Nat) : Option BFutureObj := s.futures[i]?

/-- Heap write (`Bail`). -/
def bsetF (s : BState) (i : Nat) (o : BFutureObj) : BState :=
  { s with futures := s.futures.set i o }

/-- Append a `setTimeout` task (`Bail`, FIFO). -/
def bpushTask (s : BState) (t : BTask) : BState :=
  { s with tasks := s.tasks ++ [t] }

/-- Read a mutable array cell (`Bail`). -/
def bgetRef (s : BState) (r : Nat) : List Val := s.refs[r]?.getD []

/-- Write a mutable array cell (`Bail`). -/
def bsetRef (s : BState) (r : Nat) (vs : List Val) : BState :=
  { s with refs := s.refs.set r vs }

/-- The `Bail` object as first created by the class-field initializers:
`status = 'Pending'` (the other two fields are only declared). -/
def bailFieldInit : BFutureObj := ⟨.pendingLit, .unit, []⟩

/-- The `Bail` object after the constructor body has reassigned all three
fields (`this.status = STATUSES.PENDING; this.value = undefined;
this.handlers = []`), overwriting the dead `'Pending'` literal before the
resolver (or any other code) can observe it. -/
def bailCtorInit : BFutureObj :=
  { bailFieldInit with status := .pending, value := .unit, handlers := [] }

/-- Interpret one `Bail` operation.  Except for the two-phase construction
(`bailFieldInit` then `bailCtorInit`) and the extra `pendingLit` status —
which compares unequal to `STATUSES.PENDING`, so `updateResult`'s guard
treats it as settled while `executeHandlers`'s guard lets it through to
the rejection branch of the `forEach` — this is a verbatim duplicate of
`exec`. -/
def bexec : Nat → BCall → BState → (Except Val Val) × BState
  | 0, _, s => (.ok .unit, s)
  | n + 1, c, s =>
    match c with
    | .construct rsv =>
      let id := s.futures.length
      let s := { s with futures := s.futures ++ [bailCtorInit] }
      let body : (Except Val Val) × BState :=
        match rsv with
        | .ext => (.ok .unit, s)
        | .thenR p cbF cbR => bexec n (.addHandler p cbF cbR id) s
        | .allR inputs =>
          let r := s.refs.length
          let s := { s with refs := s.refs ++ [[]] }
          bexec n (.allLoop id r inputs.length inputs) s
        | .raceR inputs => bexec n (.raceLoop id inputs) s
        | .resolveWith v => bexec n (.resolve id v) s
        | .rejectWith v => bexec n (.reject id v) s
        | .throwR v => (.error v, s)
      match body with
      | (.error e, s) =>
        let (_, s) := bexec n (.reject id e) s
        (.ok (.fut id), s)
      | (.ok _, s) => (.ok (.fut id), s)
    | .thenCall p cbF cbR => bexec n (.construct (.thenR p cbF cbR)) s
    | .catchCall p cb => bexec n (.thenCall p none cb) s
    | .addHandler f cbF cbR child =>
      match bgetF s f with
      | none => (.ok .unit, s)
      | some o =>
        let h : Handler := ⟨s.nextH, cbF, cbR, child⟩
        let s := bsetF { s with nextH := s.nextH + 1 } f
          { o with handlers := o.handlers ++ [h] }
        bexec n (.executeHandlers f) s
    | .executeHandlers f =>
      match bgetF s f with
      | none => (.ok .unit, s)
      | some o =>
        match o.status with
        | .pending => (.ok .unit, s)
        | _ =>
          let (_, s) := bexec n (.handlersLoop f o.handlers) s
          match bgetF s f with
          | none => (.ok .unit, s)
          | some o2 => (.ok .unit, bsetF s f { o2 with handlers := [] })
    | .handlersLoop f hs =>
      match hs with
      | [] => (.ok .unit, s)
      | h :: rest =>
        match bgetF s f with
        | none => (.ok .unit, s)
        | some o =>
          let (_, s) := bexec n (.runHandler h o.status o.value) s
          bexec n (.handlersLoop f rest) s
    | .runHandler h st v =>
      let s := { s with dlog := s.dlog ++ [h.hid] }
      match st with
      | .pending => (.ok .unit, s)
      | .fulfilled =>
        match h.cbF with
        | none => bexec n (.resolve h.child v) s
        | some cb =>
          match bexec n (.runCallback cb v) s with
          | (.ok rv, s) => bexec n (.resolve h.child rv) s
          | (.error e, s) => bexec n (.reject h.child e) s
      | _ =>
        match h.cbR with
        | none =>
          let (_, s) := bexec n (.reject h.child v) s
          bexec n (.reject h.child (.exn "TypeError")) s
        | some cb =>
          match bexec n (.runCallback cb v) s with
          | (.ok rv, s) => bexec n (.reject h.child rv) s
          | (.error e, s) => bexec n (.reject h.child e) s
    | .runCallback cb v =>
      match cb with
      | .resolveOf f => bexec n (.resolve f v) s
      | .rejectOf f => bexec n (.reject f v) s
      | .allCb agg r cnt =>
        let rs := bgetRef s r ++ [v]
        let s := bsetRef s r rs
        if rs.length = cnt then
          let (_, s) := bexec n (.resolve agg (.list rs)) s
          (.ok .unit, s)
        else (.ok .unit, s)
      | .const w => (.ok w, s)
      | .throwv e => (.error e, s)
      | .logv t => (.ok .unit, { s with vlog := s.vlog ++ [.list [t, v]] })
      | .thenOnce r target cb2 =>
        match bgetRef s r with
        | [] =>
          let s := bsetRef s r [.unit]
          let (_, s) := bexec n (.thenCall target (some cb2) none) s
          (.ok .unit, s)
        | _ :: _ => (.ok .unit, s)
    | .resolve f v =>
      (.ok .unit, bpushTask s (.settle f v .fulfilled))
    | .reject f v =>
      (.ok .unit, bpushTask s (.settle f v .rejected))
    | .allLoop self r cnt rest =>
      match rest with
      | [] => (.ok .unit, s)
      | i :: rest' =>
        let (res1, s) := bexec n (.thenCall i (some (.allCb self r cnt)) none) s
        let s :=
          match res1 with
          | .ok (.fut c1) => (bexec n (.catchCall c1 (some (.rejectOf self))) s).2
          | _ => s
        bexec n (.allLoop self r cnt rest') s
    | .raceLoop self rest =>
      match rest with
      | [] => (.ok .unit, s)
      | i :: rest' =>
        let (res1, s) := bexec n (.thenCall i (some (.resolveOf self)) none) s
        let s :=
          match res1 with
          | .ok (.fut c1) => (bexec n (.catchCall c1 (some (.rejectOf self))) s).2
          | _ => s
        bexec n (.raceLoop self rest') s
    | .settleTask (.settle f v st) =>
      match bgetF s f with
      | none => (.ok .unit, s)
      | some o =>
        match o.status with
        | .pending =>
          if isThenable v then
            match v with
            | .fut b => bexec n (.thenCall b (some (.resolveOf f)) (some (.rejectOf f))) s
            | _ => (.ok .unit, s)
          else
            let s := bsetF s f { o with value := v, status := st }
            bexec n (.executeHandlers f) s
        | _ => (.ok .unit, s)

/-- The host event loop over a `Bail` state. -/
def bdrainWith (fuel : Nat) : Nat → BState → BState
  | 0, s => s
  | n + 1, s =>
    match s.tasks with
    | [] => s
    | t :: rest => bdrainWith fuel n (bexec fuel (.settleTask t) { s with tasks := rest }).2

/-- The host event loop run to quiescence (`Bail`). -/
def bdrain (n : Nat) (s : BState) : BState := bdrainWith n n s

/-- Run a synchronous `Bail` call, keeping only the state. -/
def bdoCall (fuel : Nat) (c : BCall) (s : BState) : BState := (bexec fuel c s).2

/-- The status and value of `Bail` object `i` in state `s`. -/
def bstatusValueAt (s : BState) (i : Nat) : Option (BStatus × Val) :=
  (bgetF s i).map fun o => (o.status, o.value)

/-! ### The simulation map from `Future` states to `Bail` states -/

/-- Statuses of `Future` map to the like-named statuses of `Bail`
(the extra `pendingLit` is not in the image: it is dead in `Bail`). -/
def mapStatus : Status → BStatus
  | .pending => .pending
  | .fulfilled => .fulfilled
  | .rejected => .rejected

/-- Object map. -/
def mapObj (o : FutureObj) : BFutureObj := ⟨mapStatus o.status, o.value, o.handlers⟩

/-- Task map. -/
def mapTask : Task → BTask
  | .settle f v st => .settle f v (mapStatus st)

/-- State map. -/
def mapState (s : State) : BState :=
  ⟨s.futures.map mapObj, s.tasks.map mapTask, s.refs, s.vlog, s.dlog, s.nextH⟩

/-- Operation map (the identity except on embedded statuses). -/
def mapCall : Call → BCall
  | .construct rsv => .construct rsv
  | .thenCall p cbF cbR => .thenCall p cbF cbR
  | .catchCall p cb => .catchCall p cb
  | .addHandler f cbF cbR child => .addHandler f cbF cbR child
  | .executeHandlers f => .executeHandlers f
  | .handlersLoop f hs => .handlersLoop f hs
  | .runHandler h st v => .runHandler h (mapStatus st) v
  | .runCallback cb v => .runCallback cb v
  | .resolve f v => .resolve f v
  | .reject f v => .reject f v
  | .allLoop self r cnt rest => .allLoop self r cnt rest
  | .raceLoop self rest => .raceLoop self rest
  | .settleTask t => .settleTask (mapTask t)

/-! ## Basic lemmas about the state and the interpreter -/

theorem syncDelta_refl (s : State) : syncDelta s s := fun _ => .inl rfl

theorem syncDelta_trans {s s' s'' : State} (h1 : syncDelta s s')
    (h2 : syncDelta s' s'') : syncDelta s s'' := by
  intro i
  rcases h2 i with h2i | ⟨h2n, h2p⟩
  · rcases h1 i with h1i | ⟨h1n, h1p⟩
    · exact .inl (h2i.trans h1i)
    · exact .inr ⟨h1n, h2i.trans h1p⟩
  · rcases h1 i with h1i | ⟨h1n, h1p⟩
    · exact .inr ⟨h1i ▸ h2n, h2p⟩
    · rw [h1p] at h2n; cases h2n

theorem syncDelta_preservesStatusValue {s s' : State} (h : syncDelta s s') :
    preservesStatusValue s s' := by
  intro i p hp
  rcases h i with hi | ⟨hn, _⟩
  · exact hi.trans hp
  · rw [hp] at hn; cases hn

theorem preservesStatusValue_settled {s s' : State}
    (h : preservesStatusValue s s') : preservesSettled s s' :=
  fun i st v hp _ => h i (st, v) hp

theorem preservesSettled_refl (s : State) : preservesSettled s s :=
  fun _ _ _ hp _ => hp

theorem preservesSettled_trans {s s' s'' : State} (h1 : preservesSettled s s')
    (h2 : preservesSettled s' s'') : preservesSettled s s'' :=
  fun i st v hp hst => h2 i st v (h1 i st v hp hst) hst

@[simp] theorem sv_pushTask (s : State) (t : Task) (i : Nat) :
    statusValueAt (pushTask s t) i = statusValueAt s i := rfl

@[simp] theorem sv_tasks (s : State) (ts : List Task) (i : Nat) :
    statusValueAt { s with tasks := ts } i = statusValueAt s i := rfl

@[simp] theorem sv_refs (s : State) (rs : List (List Val)) (i : Nat) :
    statusValueAt { s with refs := rs } i = statusValueAt s i := rfl

@[simp] theorem sv_setRef (s : State) (r : Nat) (vs : List Val) (i : Nat) :
    statusValueAt (setRef s r vs) i = statusValueAt s i := rfl

@[simp] theorem sv_vlog (s : State) (l : List Val) (i : Nat) :
    statusValueAt { s with vlog := l } i = statusValueAt s i := rfl

@[simp] theorem sv_dlog (s : State) (l : List Nat) (i : Nat) :
    statusValueAt { s with dlog := l } i = statusValueAt s i := rfl

@[simp] theorem sv_nextH (s : State) (k : Nat) (i : Nat) :
    statusValueAt { s with nextH := k } i = statusValueAt s i := rfl

theorem sv_setF_ne {s : State} {j i : Nat} (o : FutureObj) (h : j ≠ i) :
    statusValueAt (setF s j o) i = statusValueAt s i := by
  unfold statusValueAt getF setF
  simp [List.getElem?_set_ne h]

theorem sv_setF_self {s : State} {j : Nat} (o : FutureObj)
    (h : j < s.futures.length) :
    statusValueAt (setF s j o) j = some (o.status, o.value) := by
  unfold statusValueAt getF setF
  simp [List.getElem?_set_self h]

theorem getF_lt_length {s : State} {i : Nat} {o : FutureObj}
    (h : getF s i = some o) : i < s.futures.length := by
  unfold getF at h
  rw [List.getElem?_eq_some] at h
  exact h.1

theorem sv_lt_length {s : State} {i : Nat} {p : Status × Val}
    (h : statusValueAt s i = some p) : i < s.futures.length := by
  unfold statusValueAt at h
  rcases ho : getF s i with _ | o
  · rw [ho] at h; cases h
  · exact getF_lt_length ho

/-- Appending a fresh pending future is a `syncDelta`. -/
theorem syncDelta_construct (s : State) :
    syncDelta s { s with futures := s.futures ++ [⟨.pending, .unit, []⟩] } := by
  intro i
  rcases lt_trichotomy i s.futures.length with hlt | heq | hgt
  · left
    unfold statusValueAt getF
    simp [List.getElem?_append_left hlt]
  · right
    subst heq
    constructor
    · unfold statusValueAt getF
      simp
    · unfold statusValueAt getF
      simp
  · left
    unfold statusValueAt getF
    have h1 : s.futures.length ≤ i := le_of_lt hgt
    have h2 : (s.futures ++ [(⟨.pending, .unit, []⟩ : FutureObj)]).length ≤ i := by
      simp; omega
    simp [List.getElem?_eq_none h1, List.getElem?_eq_none h2]

theorem syncDelta_of_eq {s s' : State}
    (h : ∀ i, statusValueAt s' i = statusValueAt s i) : syncDelta s s' :=
  fun i => .inl (h i)

/-- `setF` that touches only the `handlers` field of an existing object is
a `syncDelta`. -/
theorem syncDelta_setF_handlers {s : State} {j : Nat} {o : FutureObj}
    (ho : getF s j = some o) (hs : List Handler) :
    syncDelta s (setF s j { o with handlers := hs }) := by
  apply syncDelta_of_eq
  intro i
  rcases eq_or_ne j i with rfl | hne
  · rw [sv_setF_self _ (getF_lt_length ho)]
    unfold statusValueAt
    rw [ho]
    rfl
  · exact sv_setF_ne _ hne

/-- The central synchronous-turn lemma: any operation other than the
deferred `settleTask` leaves the status and value of every existing
future exactly as they were, and only ever adds freshly constructed
pending futures.  (Statuses and values are mutated solely inside the
`setTimeout` body of `updateResult`.) -/
theorem exec_syncDelta :
    ∀ (n : Nat) (c : Call) (s : State), SyncCall c → syncDelta s (exec n c s).2 := by
  intro n
  induction n with
  | zero => intro c s _; exact syncDelta_refl s
  | succ n ih =>
    intro c s hc
    have step : ∀ (c' : Call) (s' : State) (r : Except Val Val) (s1 : State),
        SyncCall c' → exec n c' s' = (r, s1) → syncDelta s' s1 := by
      intro c' s' r s1 hc' heq
      have := ih c' s' hc'
      rwa [heq] at this
    cases c with
    | settleTask t => exact absurd rfl (hc t)
    | construct rsv =>
      simp only [exec]
      have hstep : syncDelta s { s with futures := s.futures ++ [⟨.pending, .unit, []⟩] } :=
        syncDelta_construct s
      split
      next e sx heq =>
        have h1 : syncDelta { s with futures := s.futures ++ [⟨.pending, .unit, []⟩] } sx := by
          split at heq
          all_goals first
            | (cases heq; exact syncDelta_refl _)
            | simp at heq
            | exact step _ _ _ _ (fun t h => Call.noConfusion h) heq
            | exact syncDelta_trans (syncDelta_of_eq fun i => sv_refs _ _ _)
                (step _ _ _ _ (fun t h => Call.noConfusion h) heq)
        exact syncDelta_trans hstep (syncDelta_trans h1
          (ih (.reject s.futures.length e) sx (fun t h => Call.noConfusion h)))
      next w sx heq =>
        have h1 : syncDelta { s with futures := s.futures ++ [⟨.pending, .unit, []⟩] } sx := by
          split at heq
          all_goals first
            | (cases heq; exact syncDelta_refl _)
            | simp at heq
            | exact step _ _ _ _ (fun t h => Call.noConfusion h) heq
            | exact syncDelta_trans (syncDelta_of_eq fun i => sv_refs _ _ _)
                (step _ _ _ _ (fun t h => Call.noConfusion h) heq)
        exact syncDelta_trans hstep h1
    | thenCall p cbF cbR =>
      simp only [exec]
      exact ih (.construct (.thenR p cbF cbR)) s (fun t h => Call.noConfusion h)
    | catchCall p cb =>
      simp only [exec]
      exact ih (.thenCall p none cb) s (fun t h => Call.noConfusion h)
    | addHandler f cbF cbR child =>
      simp only [exec]
      rcases hg : getF s f with _ | o
      · exact syncDelta_refl s
      · have hstep : syncDelta s
            (setF { s with nextH := s.nextH + 1 } f
              { o with handlers := o.handlers ++ [⟨s.nextH, cbF, cbR, child⟩] }) := by
          exact syncDelta_trans (syncDelta_of_eq fun i => sv_nextH _ _ _)
            (syncDelta_setF_handlers (by exact hg) _)
        exact syncDelta_trans hstep
          (ih (.executeHandlers f) _ (fun t h => Call.noConfusion h))
    | executeHandlers f =>
      simp only [exec]
      split
      · exact syncDelta_refl s
      next o hg =>
        split
        · exact syncDelta_refl s
        next =>
          have hb : syncDelta s (exec n (.handlersLoop f o.handlers) s).2 :=
            ih (.handlersLoop f o.handlers) s (fun t h => Call.noConfusion h)
          split
          next hg2 => exact hb
          next o2 hg2 => exact syncDelta_trans hb (syncDelta_setF_handlers hg2 [])
    | handlersLoop f hs =>
      simp only [exec]
      cases hs with
      | nil => exact syncDelta_refl s
      | cons h rest =>
        rcases hg : getF s f with _ | o
        · exact syncDelta_refl s
        · rcases hE : exec n (.runHandler h o.status o.value) s with ⟨r1, s1⟩
          have hb : syncDelta s s1 := by
            have := ih (.runHandler h o.status o.value) s (fun t h => Call.noConfusion h)
            rwa [hE] at this
          simp only [hE]
          exact syncDelta_trans hb
            (ih (.handlersLoop f rest) s1 (fun t h => Call.noConfusion h))
    | runHandler h st v =>
      simp only [exec]
      have hstep : syncDelta s { s with dlog := s.dlog ++ [h.hid] } :=
        syncDelta_of_eq fun i => sv_dlog _ _ _
      cases st with
      | pending => exact hstep
      | fulfilled =>
        cases hcb : h.cbF with
        | none =>
          exact syncDelta_trans hstep
            (ih (.resolve h.child v) _ (fun t h => Call.noConfusion h))
        | some cb =>
          rcases hE : exec n (.runCallback cb v) { s with dlog := s.dlog ++ [h.hid] }
            with ⟨r1, s2⟩
          have hb : syncDelta { s with dlog := s.dlog ++ [h.hid] } s2 := by
            have := ih (.runCallback cb v) { s with dlog := s.dlog ++ [h.hid] }
              (fun t h => Call.noConfusion h)
            rwa [hE] at this
          simp only [hE]
          cases r1 with
          | ok rv =>
            exact syncDelta_trans hstep (syncDelta_trans hb
              (ih (.resolve h.child rv) s2 (fun t h => Call.noConfusion h)))
          | error e =>
            exact syncDelta_trans hstep (syncDelta_trans hb
              (ih (.reject h.child e) s2 (fun t h => Call.noConfusion h)))
      | rejected =>
        cases hcb : h.cbR with
        | none =>
          rcases hE : exec n (.reject h.child v) { s with dlog := s.dlog ++ [h.hid] }
            with ⟨r1, s2⟩
          have hb : syncDelta { s with dlog := s.dlog ++ [h.hid] } s2 := by
            have := ih (.reject h.child v) { s with dlog := s.dlog ++ [h.hid] }
              (fun t h => Call.noConfusion h)
            rwa [hE] at this
          simp only [hE]
          exact syncDelta_trans hstep (syncDelta_trans hb
            (ih (.reject h.child (.exn "TypeError")) s2 (fun t h => Call.noConfusion h)))
        | some cb =>
          rcases hE : exec n (.runCallback cb v) { s with dlog := s.dlog ++ [h.hid] }
            with ⟨r1, s2⟩
          have hb : syncDelta { s with dlog := s.dlog ++ [h.hid] } s2 := by
            have := ih (.runCallback cb v) { s with dlog := s.dlog ++ [h.hid] }
              (fun t h => Call.noConfusion h)
            rwa [hE] at this
          simp only [hE]
          cases r1 with
          | ok rv =>
            exact syncDelta_trans hstep (syncDelta_trans hb
              (ih (.reject h.child rv) s2 (fun t h => Call.noConfusion h)))
          | error e =>
            exact syncDelta_trans hstep (syncDelta_trans hb
              (ih (.reject h.child e) s2 (fun t h => Call.noConfusion h)))
    | runCallback cb v =>
      simp only [exec]
      split
      · exact ih (.resolve _ v) s (fun t h => Call.noConfusion h)
      · exact ih (.reject _ v) s (fun t h => Call.noConfusion h)
      · split
        · exact syncDelta_trans (syncDelta_of_eq fun i => sv_setRef _ _ _ _)
            (ih (.resolve _ _) _ (fun t h => Call.noConfusion h))
        · exact syncDelta_of_eq fun i => sv_setRef _ _ _ _
      · exact syncDelta_refl s
      · exact syncDelta_refl s
      · exact syncDelta_of_eq fun i => sv_vlog _ _ _
      · split
        · exact syncDelta_trans (syncDelta_of_eq fun i => sv_setRef _ _ _ _)
            (ih (.thenCall _ (some _) none) _ (fun t h => Call.noConfusion h))
        · exact syncDelta_refl s
    | resolve f v => exact syncDelta_of_eq fun i => sv_pushTask _ _ _
    | reject f v => exact syncDelta_of_eq fun i => sv_pushTask _ _ _
    | allLoop self r cnt rest =>
      simp only [exec]
      cases rest with
      | nil => exact syncDelta_refl s
      | cons i rest' =>
        rcases hE : exec n (.thenCall i (some (.allCb self r cnt)) none) s with ⟨r1, s1⟩
        have hb : syncDelta s s1 := by
          have := ih (.thenCall i (some (.allCb self r cnt)) none) s
            (fun t h => Call.noConfusion h)
          rwa [hE] at this
        simp only [hE]
        cases r1 with
        | error e =>
          exact syncDelta_trans hb
            (ih (.allLoop self r cnt rest') s1 (fun t h => Call.noConfusion h))
        | ok w =>
          cases w with
          | fut c1 =>
            simp only []
            rcases hE2 : exec n (.catchCall c1 (some (.rejectOf self))) s1 with ⟨r2, s2⟩
            have hb2 : syncDelta s1 s2 := by
              have := ih (.catchCall c1 (some (.rejectOf self))) s1
                (fun t h => Call.noConfusion h)
              rwa [hE2] at this
            simp only [hE2]
            exact syncDelta_trans hb (syncDelta_trans hb2
              (ih (.allLoop self r cnt rest') s2 (fun t h => Call.noConfusion h)))
          | unit =>
            exact syncDelta_trans hb
              (ih (.allLoop self r cnt rest') s1 (fun t h => Call.noConfusion h))
          | num m =>
            exact syncDelta_trans hb
              (ih (.allLoop self r cnt rest') s1 (fun t h => Call.noConfusion h))
          | str a =>
            exact syncDelta_trans hb
              (ih (.allLoop self r cnt rest') s1 (fun t h => Call.noConfusion h))
          | list l =>
            exact syncDelta_trans hb
              (ih (.allLoop self r cnt rest') s1 (fun t h => Call.noConfusion h))
          | exn m =>
            exact syncDelta_trans hb
              (ih (.allLoop self r cnt rest') s1 (fun t h => Call.noConfusion h))
    | raceLoop self rest =>
      simp only [exec]
      cases rest with
      | nil => exact syncDelta_refl s
      | cons i rest' =>
        rcases hE : exec n (.thenCall i (some (.resolveOf self)) none) s with ⟨r1, s1⟩
        have hb : syncDelta s s1 := by
          have := ih (.thenCall i (some (.resolveOf self)) none) s
            (fun t h => Call.noConfusion h)
          rwa [hE] at this
        simp only [hE]
        cases r1 with
        | error e =>
          exact syncDelta_trans hb
            (ih (.raceLoop self rest') s1 (fun t h => Call.noConfusion h))
        | ok w =>
          cases w with
          | fut c1 =>
            simp only []
            rcases hE2 : exec n (.catchCall c1 (some (.rejectOf self))) s1 with ⟨r2, s2⟩
            have hb2 : syncDelta s1 s2 := by
              have := ih (.catchCall c1 (some (.rejectOf self))) s1
                (fun t h => Call.noConfusion h)
              rwa [hE2] at this
            simp only [hE2]
            exact syncDelta_trans hb (syncDelta_trans hb2
              (ih (.raceLoop self rest') s2 (fun t h => Call.noConfusion h)))
          | unit =>
            exact syncDelta_trans hb
              (ih (.raceLoop self rest') s1 (fun t h => Call.noConfusion h))
          | num m =>
            exact syncDelta_trans hb
              (ih (.raceLoop self rest') s1 (fun t h => Call.noConfusion h))
          | str a =>
            exact syncDelta_trans hb
              (ih (.raceLoop self rest') s1 (fun t h => Call.noConfusion h))
          | list l =>
            exact syncDelta_trans hb
              (ih (.raceLoop self rest') s1 (fun t h => Call.noConfusion h))
          | exn m =>
            exact syncDelta_trans hb
              (ih (.raceLoop self rest') s1 (fun t h => Call.noConfusion h))

/-- A synchronous call preserves every future's status and value. -/
theorem exec_sync_preservesStatusValue (n : Nat) (c : Call) (s : State)
    (hc : SyncCall c) : preservesStatusValue s (exec n c s).2 :=
  syncDelta_preservesStatusValue (exec_syncDelta n c s hc)

/-- The deferred `updateResult` body never changes an already settled
future: the whole body is guarded by the pending check. -/
theorem exec_settleTask_preservesSettled (n : Nat) (t : Task) (s : State) :
    preservesSettled s (exec n (.settleTask t) s).2 := by
  cases n with
  | zero => exact preservesSettled_refl s
  | succ n =>
    cases t with
    | settle f v st =>
      simp only [exec]
      split
      · exact preservesSettled_refl s
      next o hg =>
        split
        next hpend =>
          split
          · split
            · exact preservesStatusValue_settled (exec_sync_preservesStatusValue n _ _
                (fun t h => Call.noConfusion h))
            · exact preservesSettled_refl s
          · have h1 : preservesSettled s (setF s f { o with value := v, status := st }) := by
              intro i st' v' hp hst'
              rcases eq_or_ne f i with rfl | hne
              · have hsv : statusValueAt s f = some (o.status, o.value) := by
                  unfold statusValueAt
                  rw [hg]
                  rfl
                rw [hsv] at hp
                injection hp with hp'
                injection hp' with h1 h2
                rw [← h1, hpend] at hst'
                exact absurd rfl hst'
              · rw [sv_setF_ne _ hne]
                exact hp
            exact preservesSettled_trans h1
              (preservesStatusValue_settled (exec_sync_preservesStatusValue n _ _
                (fun t h => Call.noConfusion h)))
        next => exact preservesSettled_refl s

/-- No operation whatsoever changes the status or value of an already
settled future. -/
theorem exec_preservesSettled (n : Nat) (c : Call) (s : State) :
    preservesSettled s (exec n c s).2 := by
  cases c with
  | settleTask t => exact exec_settleTask_preservesSettled n t s
  | construct rsv =>
    exact preservesStatusValue_settled (exec_sync_preservesStatusValue n _ _
      (fun t h => Call.noConfusion h))
  | thenCall p cbF cbR =>
    exact preservesStatusValue_settled (exec_sync_preservesStatusValue n _ _
      (fun t h => Call.noConfusion h))
  | catchCall p cb =>
    exact preservesStatusValue_settled (exec_sync_preservesStatusValue n _ _
      (fun t h => Call.noConfusion h))
  | addHandler f cbF cbR child =>
    exact preservesStatusValue_settled (exec_sync_preservesStatusValue n _ _
      (fun t h => Call.noConfusion h))
  | executeHandlers f =>
    exact preservesStatusValue_settled (exec_sync_preservesStatusValue n _ _
      (fun t h => Call.noConfusion h))
  | handlersLoop f hs =>
    exact preservesStatusValue_settled (exec_sync_preservesStatusValue n _ _
      (fun t h => Call.noConfusion h))
  | runHandler h st v =>
    exact preservesStatusValue_settled (exec_sync_preservesStatusValue n _ _
      (fun t h => Call.noConfusion h))
  | runCallback cb v =>
    exact preservesStatusValue_settled (exec_sync_preservesStatusValue n _ _
      (fun t h => Call.noConfusion h))
  | resolve f v =>
    exact preservesStatusValue_settled (exec_sync_preservesStatusValue n _ _
      (fun t h => Call.noConfusion h))
  | reject f v =>
    exact preservesStatusValue_settled (exec_sync_preservesStatusValue n _ _
      (fun t h => Call.noConfusion h))
  | allLoop self r cnt rest =>
    exact preservesStatusValue_settled (exec_sync_preservesStatusValue n _ _
      (fun t h => Call.noConfusion h))
  | raceLoop self rest =>
    exact preservesStatusValue_settled (exec_sync_preservesStatusValue n _ _
      (fun t h => Call.noConfusion h))

/-- The event loop never changes the status or value of an already settled
future. -/
theorem drainWith_preservesSettled (fuel : Nat) :
    ∀ (m : Nat) (s : State), preservesSettled s (drainWith fuel m s) := by
  intro m
  induction m with
  | zero => intro s; exact preservesSettled_refl s
  | succ m ih =>
    intro s
    simp only [drainWith]
    split
    · exact preservesSettled_refl s
    next t rest heq =>
      have h0 : preservesSettled s { s with tasks := rest } := fun i st v hp _ => hp
      exact preservesSettled_trans
        (preservesSettled_trans h0 (exec_preservesSettled fuel (.settleTask t) _))
        (ih _)

/-- A `syncDelta` step preserves the settled-values-are-not-thenable
invariant. -/
theorem settledNotThenable_syncDelta {s s' : State} (hd : syncDelta s s')
    (h : settledNotThenable s) : settledNotThenable s' := by
  intro i st v hp hst
  rcases hd i with heq | ⟨_, hnew⟩
  · rw [heq] at hp
    exact h i st v hp hst
  · rw [hnew] at hp
    injection hp with hp'
    injection hp' with h1 h2
    rw [← h1] at hst
    exact absurd rfl hst

/-- Every operation preserves the invariant that a settled future's value
is never itself a `Future`: `updateResult` only writes a value after the
`isThenable` test fails, and otherwise defers to the inner future. -/
theorem exec_settledNotThenable (n : Nat) (c : Call) (s : State)
    (h : settledNotThenable s) : settledNotThenable (exec n c s).2 := by
  cases hcase : c with
  | settleTask t =>
    cases n with
    | zero => exact h
    | succ n =>
      cases t with
      | settle f v st =>
        simp only [exec]
        split
        · exact h
        next o hg =>
          split
          next hpend =>
            split
            · split
              · exact settledNotThenable_syncDelta
                  (exec_syncDelta n _ _ (fun t h => Call.noConfusion h)) h
              · exact h
            next hth =>
              have hv : isThenable v = false := by
                revert hth
                cases isThenable v
                · intro _; rfl
                · intro hth; exact absurd rfl hth
              have h1 : settledNotThenable (setF s f { o with value := v, status := st }) := by
                intro i st' v' hp hst'
                rcases eq_or_ne f i with rfl | hne
                · rw [sv_setF_self _ (getF_lt_length hg)] at hp
                  injection hp with hp'
                  injection hp' with h1 h2
                  rw [← h2]
                  exact hv
                · rw [sv_setF_ne _ hne] at hp
                  exact h i st' v' hp hst'
              exact settledNotThenable_syncDelta
                (exec_syncDelta n _ _ (fun t h => Call.noConfusion h)) h1
          next => exact h
  | construct rsv =>
    exact settledNotThenable_syncDelta
      (exec_syncDelta n _ _ (fun t h => Call.noConfusion h)) h
  | thenCall p cbF cbR =>
    exact settledNotThenable_syncDelta
      (exec_syncDelta n _ _ (fun t h => Call.noConfusion h)) h
  | catchCall p cb =>
    exact settledNotThenable_syncDelta
      (exec_syncDelta n _ _ (fun t h => Call.noConfusion h)) h
  | addHandler f cbF cbR child =>
    exact settledNotThenable_syncDelta
      (exec_syncDelta n _ _ (fun t h => Call.noConfusion h)) h
  | executeHandlers f =>
    exact settledNotThenable_syncDelta
      (exec_syncDelta n _ _ (fun t h => Call.noConfusion h)) h
  | handlersLoop f hs =>
    exact settledNotThenable_syncDelta
      (exec_syncDelta n _ _ (fun t h => Call.noConfusion h)) h
  | runHandler hh st v =>
    exact settledNotThenable_syncDelta
      (exec_syncDelta n _ _ (fun t h => Call.noConfusion h)) h
  | runCallback cb v =>
    exact settledNotThenable_syncDelta
      (exec_syncDelta n _ _ (fun t h => Call.noConfusion h)) h
  | resolve f v =>
    exact settledNotThenable_syncDelta
      (exec_syncDelta n _ _ (fun t h => Call.noConfusion h)) h
  | reject f v =>
    exact settledNotThenable_syncDelta
      (exec_syncDelta n _ _ (fun t h => Call.noConfusion h)) h
  | allLoop self r cnt rest =>
    exact settledNotThenable_syncDelta
      (exec_syncDelta n _ _ (fun t h => Call.noConfusion h)) h
  | raceLoop self rest =>
    exact settledNotThenable_syncDelta
      (exec_syncDelta n _ _ (fun t h => Call.noConfusion h)) h

/-- The event loop preserves the settled-values-are-not-thenable
invariant. -/
theorem drainWith_settledNotThenable (fuel : Nat) :
    ∀ (m : Nat) (s : State), settledNotThenable s →
      settledNotThenable (drainWith fuel m s) := by
  intro m
  induction m with
  | zero => intro s h; exact h
  | succ m ih =>
    intro s h
    simp only [drainWith]
    split
    · exact h
    next t rest heq =>
      have h0 : settledNotThenable { s with tasks := rest } := fun i st v hp => h i st v hp
      exact ih _ (exec_settledNotThenable fuel (.settleTask t) _ h0)

/-! ### The interpreter commutes with payload renamings -/

@[simp] theorem getF_ren (ρ : Ren) (s : State) (i : Nat) :
    getF (renState ρ s) i = (getF s i).map (renObj ρ) := by
  simp [getF, renState, List.getElem?_map]

theorem setF_ren (ρ : Ren) (s : State) (i : Nat) (o : FutureObj) :
    renState ρ (setF s i o) = setF (renState ρ s) i (renObj ρ o) := by
  simp [setF, renState, List.map_set]

theorem pushTask_ren (ρ : Ren) (s : State) (t : Task) :
    renState ρ (pushTask s t) = pushTask (renState ρ s) (renTask ρ t) := by
  simp [pushTask, renState]

@[simp] theorem getRef_ren (ρ : Ren) (s : State) (r : Nat) :
    getRef (renState ρ s) r = renVals ρ (getRef s r) := by
  simp only [getRef, renState, List.getElem?_map]
  cases s.refs[r]? <;> simp [renVals]

theorem setRef_ren (ρ : Ren) (s : State) (r : Nat) (vs : List Val) :
    renState ρ (setRef s r vs) = setRef (renState ρ s) r (renVals ρ vs) := by
  simp [setRef, renState, List.map_set]

@[simp] theorem renVals_append (ρ : Ren) (l l' : List Val) :
    renVals ρ (l ++ l') = renVals ρ l ++ renVals ρ l' := by
  induction l with
  | nil => rfl
  | cons v vs ih => simp [renVals, ih]

@[simp] theorem renVals_length (ρ : Ren) (l : List Val) :
    (renVals ρ l).length = l.length := by
  induction l with
  | nil => rfl
  | cons v vs ih => simp [renVals, ih]

@[simp] theorem isThenable_ren (ρ : Ren) (v : Val) :
    isThenable (renVal ρ v) = isThenable v := by
  cases v <;> rfl

@[simp] theorem renState_futures_length (ρ : Ren) (s : State) :
    (renState ρ s).futures.length = s.futures.length := by
  simp [renState]

@[simp] theorem renState_refs_length (ρ : Ren) (s : State) :
    (renState ρ s).refs.length = s.refs.length := by
  simp [renState]

@[simp] theorem renState_futures (ρ : Ren) (s : State) :
    (renState ρ s).futures = s.futures.map (renObj ρ) := rfl

@[simp] theorem renState_tasks (ρ : Ren) (s : State) :
    (renState ρ s).tasks = s.tasks.map (renTask ρ) := rfl

@[simp] theorem renState_refsf (ρ : Ren) (s : State) :
    (renState ρ s).refs = s.refs.map (renVals ρ) := rfl

@[simp] theorem renState_vlogf (ρ : Ren) (s : State) :
    (renState ρ s).vlog = s.vlog.map (renVal ρ) := rfl

@[simp] theorem renState_dlog (ρ : Ren) (s : State) :
    (renState ρ s).dlog = s.dlog := rfl

@[simp] theorem renState_nextH (ρ : Ren) (s : State) :
    (renState ρ s).nextH = s.nextH := rfl

@[simp] theorem renObj_status (ρ : Ren) (o : FutureObj) :
    (renObj ρ o).status = o.status := rfl

@[simp] theorem renObj_value (ρ : Ren) (o : FutureObj) :
    (renObj ρ o).value = renVal ρ o.value := rfl

@[simp] theorem renObj_handlers (ρ : Ren) (o : FutureObj) :
    (renObj ρ o).handlers = o.handlers.map (renHandler ρ) := rfl

@[simp] theorem renHandler_hid (ρ : Ren) (h : Handler) :
    (renHandler ρ h).hid = h.hid := rfl

@[simp] theorem renHandler_cbF (ρ : Ren) (h : Handler) :
    (renHandler ρ h).cbF = h.cbF.map (renCallback ρ) := rfl

@[simp] theorem renHandler_cbR (ρ : Ren) (h : Handler) :
    (renHandler ρ h).cbR = h.cbR.map (renCallback ρ) := rfl

@[simp] theorem renHandler_child (ρ : Ren) (h : Handler) :
    (renHandler ρ h).child = h.child := rfl

theorem renState_construct (ρ : Ren) (s : State) :
    ({ renState ρ s with
        futures := (renState ρ s).futures ++ [(⟨.pending, .unit, []⟩ : FutureObj)] } : State)
      = renState ρ { s with futures := s.futures ++ [⟨.pending, .unit, []⟩] } := by
  simp [renState, renObj, renVal]

theorem renState_newRef (ρ : Ren) (s : State) :
    ({ renState ρ s with refs := (renState ρ s).refs ++ [[]] } : State)
      = renState ρ { s with refs := s.refs ++ [[]] } := by
  simp [renState, renVals]

theorem renState_construct_allR (ρ : Ren) (s : State) :
    ({ renState ρ s with
        futures := (renState ρ s).futures ++ [(⟨.pending, .unit, []⟩ : FutureObj)],
        refs := (renState ρ s).refs ++ [[]] } : State)
      = renState ρ { s with futures := s.futures ++ [⟨.pending, .unit, []⟩],
                            refs := s.refs ++ [[]] } := by
  simp [renState, renObj, renVal, renVals]

theorem renState_bumpH (ρ : Ren) (s : State) :
    ({ renState ρ s with nextH := (renState ρ s).nextH + 1 } : State)
      = renState ρ { s with nextH := s.nextH + 1 } := rfl

theorem renState_dlogPush (ρ : Ren) (s : State) (k : Nat) :
    ({ renState ρ s with dlog := (renState ρ s).dlog ++ [k] } : State)
      = renState ρ { s with dlog := s.dlog ++ [k] } := rfl

theorem renState_vlogPush (ρ : Ren) (s : State) (v : Val) :
    ({ renState ρ s with vlog := (renState ρ s).vlog ++ [renVal ρ v] } : State)
      = renState ρ { s with vlog := s.vlog ++ [v] } := by
  simp [renState]

/-- The interpreter commutes with payload renamings: running a renamed
operation on a renamed state gives the renamed outcome and the renamed
state.  The numeric and string payloads of values are only ever stored
and passed around by the implementation, never inspected. -/
theorem exec_ren (ρ : Ren) :
    ∀ (n : Nat) (c : Call) (s : State),
      exec n (renCall ρ c) (renState ρ s)
        = (renRes ρ (exec n c s).1, renState ρ (exec n c s).2) := by
  intro n
  induction n with
  | zero => intro c s; rfl
  | succ n ih =>
    intro c s
    cases c with
    | construct rsv =>
      simp only [renCall, exec]
      rw [renState_construct]
      simp only [renState_futures_length]
      cases rsv with
      | ext => simp [renResolver, renRes, renVal]
      | thenR p cbF cbR =>
        simp only [renResolver]
        rcases hE : exec n (.addHandler p cbF cbR s.futures.length)
            { s with futures := s.futures ++ [⟨.pending, .unit, []⟩] } with ⟨r1, sx⟩
        have hih := ih (.addHandler p cbF cbR s.futures.length)
          { s with futures := s.futures ++ [⟨.pending, .unit, []⟩] }
        rw [hE] at hih
        simp only [renCall, Option.map_some', Option.map_none'] at hih
        rw [hih]
        cases r1 with
        | ok w => simp [renRes, renVal]
        | error e =>
          simp only [renRes]
          have hih2 := ih (.reject s.futures.length e) sx
          simp only [renCall] at hih2
          rw [hih2]
          simp [renRes, renVal]
      | allR inputs =>
        simp only [renResolver]
        rw [renState_construct_allR]
        simp only [renState_refs_length]
        rcases hE : exec n (.allLoop s.futures.length s.refs.length inputs.length inputs)
            { s with futures := s.futures ++ [⟨.pending, .unit, []⟩],
                     refs := s.refs ++ [[]] } with ⟨r1, sx⟩
        have hih := ih (.allLoop s.futures.length s.refs.length inputs.length inputs)
          { s with futures := s.futures ++ [⟨.pending, .unit, []⟩],
                   refs := s.refs ++ [[]] }
        rw [hE] at hih
        simp only [renCall] at hih
        rw [hih]
        cases r1 with
        | ok w => simp [renRes, renVal]
        | error e =>
          simp only [renRes]
          have hih2 := ih (.reject s.futures.length e) sx
          simp only [renCall] at hih2
          rw [hih2]
          simp [renRes, renVal]
      | raceR inputs =>
        simp only [renResolver]
        rcases hE : exec n (.raceLoop s.futures.length inputs)
            { s with futures := s.futures ++ [⟨.pending, .unit, []⟩] } with ⟨r1, sx⟩
        have hih := ih (.raceLoop s.futures.length inputs)
          { s with futures := s.futures ++ [⟨.pending, .unit, []⟩] }
        rw [hE] at hih
        simp only [renCall] at hih
        rw [hih]
        cases r1 with
        | ok w => simp [renRes, renVal]
        | error e =>
          simp only [renRes]
          have hih2 := ih (.reject s.futures.length e) sx
          simp only [renCall] at hih2
          rw [hih2]
          simp [renRes, renVal]
      | resolveWith v =>
        simp only [renResolver]
        rcases hE : exec n (.resolve s.futures.length v)
            { s with futures := s.futures ++ [⟨.pending, .unit, []⟩] } with ⟨r1, sx⟩
        have hih := ih (.resolve s.futures.length v)
          { s with futures := s.futures ++ [⟨.pending, .unit, []⟩] }
        rw [hE] at hih
        simp only [renCall] at hih
        rw [hih]
        cases r1 with
        | ok w => simp [renRes, renVal]
        | error e =>
          simp only [renRes]
          have hih2 := ih (.reject s.futures.length e) sx
          simp only [renCall] at hih2
          rw [hih2]
          simp [renRes, renVal]
      | rejectWith v =>
        simp only [renResolver]
        rcases hE : exec n (.reject s.futures.length v)
            { s with futures := s.futures ++ [⟨.pending, .unit, []⟩] } with ⟨r1, sx⟩
        have hih := ih (.reject s.futures.length v)
          { s with futures := s.futures ++ [⟨.pending, .unit, []⟩] }
        rw [hE] at hih
        simp only [renCall] at hih
        rw [hih]
        cases r1 with
        | ok w => simp [renRes, renVal]
        | error e =>
          simp only [renRes]
          have hih2 := ih (.reject s.futures.length e) sx
          simp only [renCall] at hih2
          rw [hih2]
          simp [renRes, renVal]
      | throwR v =>
        simp only [renResolver, renRes]
        have hih2 := ih (.reject s.futures.length v)
          { s with futures := s.futures ++ [⟨.pending, .unit, []⟩] }
        simp only [renCall] at hih2
        rw [hih2]
        simp [renRes, renVal]
    | thenCall p cbF cbR =>
      simpa [renCall, exec, renResolver] using ih (.construct (.thenR p cbF cbR)) s
    | catchCall p cb =>
      simpa [renCall, exec] using ih (.thenCall p none cb) s
    | addHandler f cbF cbR child =>
      simp only [renCall, exec, getF_ren]
      cases hg : getF s f with
      | none => simp [renRes, renVal]
      | some o =>
        simp only [Option.map_some']
        have key : (setF { renState ρ s with nextH := (renState ρ s).nextH + 1 } f
            { renObj ρ o with handlers := (renObj ρ o).handlers
                ++ [⟨(renState ρ s).nextH, cbF.map (renCallback ρ),
                     cbR.map (renCallback ρ), child⟩] })
            = renState ρ (setF { s with nextH := s.nextH + 1 } f
              { o with handlers := o.handlers ++ [⟨s.nextH, cbF, cbR, child⟩] }) := by
          simp [setF, renState, List.map_set, renObj, renHandler]
        rw [key]
        simpa [renCall] using ih (.executeHandlers f)
          (setF { s with nextH := s.nextH + 1 } f
            { o with handlers := o.handlers ++ [⟨s.nextH, cbF, cbR, child⟩] })
    | executeHandlers f =>
      simp only [renCall, exec, getF_ren]
      cases hg : getF s f with
      | none => simp [renRes, renVal]
      | some o =>
        simp only [Option.map_some', renObj_status]
        cases hst : o.status with
        | pending => simp [renRes, renVal]
        | fulfilled =>
          rcases hE : exec n (.handlersLoop f o.handlers) s with ⟨r1, s1⟩
          have hih := ih (.handlersLoop f o.handlers) s
          rw [hE] at hih
          simp only [renCall, Option.map_some', Option.map_none'] at hih
          simp only [renObj_handlers]
          rw [hih]
          simp only [getF_ren]
          cases hg2 : getF s1 f with
          | none => simp [renRes, renVal]
          | some o2 =>
            have key : setF (renState ρ s1) f ⟨o2.status, renVal ρ o2.value, []⟩
                = renState ρ (setF s1 f ⟨o2.status, o2.value, []⟩) := by
              simp [setF, renState, List.map_set, renObj]
            simp [key, renRes, renVal]
        | rejected =>
          rcases hE : exec n (.handlersLoop f o.handlers) s with ⟨r1, s1⟩
          have hih := ih (.handlersLoop f o.handlers) s
          rw [hE] at hih
          simp only [renCall, Option.map_some', Option.map_none'] at hih
          simp only [renObj_handlers]
          rw [hih]
          simp only [getF_ren]
          cases hg2 : getF s1 f with
          | none => simp [renRes, renVal]
          | some o2 =>
            have key : setF (renState ρ s1) f ⟨o2.status, renVal ρ o2.value, []⟩
                = renState ρ (setF s1 f ⟨o2.status, o2.value, []⟩) := by
              simp [setF, renState, List.map_set, renObj]
            simp [key, renRes, renVal]
    | handlersLoop f hs =>
      simp only [renCall, exec]
      cases hs with
      | nil => simp [renRes, renVal]
      | cons h rest =>
        simp only [List.map_cons, getF_ren]
        cases hg : getF s f with
        | none => simp [renRes, renVal]
        | some o =>
          simp only [Option.map_some', renObj_status, renObj_value]
          rcases hE : exec n (.runHandler h o.status o.value) s with ⟨r1, s1⟩
          have hih := ih (.runHandler h o.status o.value) s
          rw [hE] at hih
          simp only [renCall, Option.map_some', Option.map_none'] at hih
          rw [hih]
          simpa [renCall] using ih (.handlersLoop f rest) s1
    | runHandler h st v =>
      simp only [renCall, exec, renHandler_hid, renHandler_cbF, renHandler_cbR,
        renHandler_child]
      rw [renState_dlogPush]
      cases st with
      | pending => simp [renRes, renVal]
      | fulfilled =>
        cases hcb : h.cbF with
        | none =>
          simpa [renCall] using ih (.resolve h.child v) { s with dlog := s.dlog ++ [h.hid] }
        | some cb =>
          simp only [Option.map_some']
          rcases hE : exec n (.runCallback cb v) { s with dlog := s.dlog ++ [h.hid] }
            with ⟨r1, s1⟩
          have hih := ih (.runCallback cb v) { s with dlog := s.dlog ++ [h.hid] }
          rw [hE] at hih
          simp only [renCall, Option.map_some', Option.map_none'] at hih
          rw [hih]
          cases r1 with
          | ok rv =>
            simpa [renCall, renRes] using ih (.resolve h.child rv) s1
          | error e =>
            simpa [renCall, renRes] using ih (.reject h.child e) s1
      | rejected =>
        cases hcb : h.cbR with
        | none =>
          rcases hE : exec n (.reject h.child v) { s with dlog := s.dlog ++ [h.hid] }
            with ⟨r1, s1⟩
          have hih := ih (.reject h.child v) { s with dlog := s.dlog ++ [h.hid] }
          rw [hE] at hih
          simp only [renCall, Option.map_some', Option.map_none'] at hih
          rw [hih]
          simpa [renCall, renVal] using ih (.reject h.child (.exn "TypeError")) s1
        | some cb =>
          simp only [Option.map_some']
          rcases hE : exec n (.runCallback cb v) { s with dlog := s.dlog ++ [h.hid] }
            with ⟨r1, s1⟩
          have hih := ih (.runCallback cb v) { s with dlog := s.dlog ++ [h.hid] }
          rw [hE] at hih
          simp only [renCall, Option.map_some', Option.map_none'] at hih
          rw [hih]
          cases r1 with
          | ok rv =>
            simpa [renCall, renRes] using ih (.reject h.child rv) s1
          | error e =>
            simpa [renCall, renRes] using ih (.reject h.child e) s1
    | runCallback cb v =>
      cases cb with
      | resolveOf f =>
        simpa [renCall, exec] using ih (.resolve f v) s
      | rejectOf f =>
        simpa [renCall, exec] using ih (.reject f v) s
      | allCb agg r cnt =>
        simp only [renCall, renCallback, exec, getRef_ren]
        have hx : renVals ρ (getRef s r) ++ [renVal ρ v] = renVals ρ (getRef s r ++ [v]) := by
          simp [renVals]
        rw [hx]
        have hy : setRef (renState ρ s) r (renVals ρ (getRef s r ++ [v]))
            = renState ρ (setRef s r (getRef s r ++ [v])) := (setRef_ren ρ s r _).symm
        rw [hy, renVals_length]
        by_cases hl : (getRef s r ++ [v]).length = cnt
        · simp only [if_pos hl]
          have hih := ih (.resolve agg (.list (getRef s r ++ [v])))
            (setRef s r (getRef s r ++ [v]))
          simp only [renCall, renVal] at hih
          rw [hih]
          simp [renRes, renVal]
        · simp only [if_neg hl]
          simp [renRes, renVal]
      | const w => simp [renCall, renCallback, exec, renRes]
      | throwv e => simp [renCall, renCallback, exec, renRes]
      | logv t =>
        simp only [renCall, renCallback, exec, renState_vlogf]
        simp [renRes, renVal, renState, renVals]
      | thenOnce r target cb2 =>
        simp only [renCall, renCallback, exec, getRef_ren]
        cases hr : getRef s r with
        | nil =>
          simp only [renVals]
          have hy : setRef (renState ρ s) r [.unit] = renState ρ (setRef s r [.unit]) := by
            have := (setRef_ren ρ s r [.unit]).symm
            simpa [renVals, renVal] using this
          rw [hy]
          rcases hE : exec n (.thenCall target (some cb2) none) (setRef s r [.unit])
            with ⟨r1, s1⟩
          have hih := ih (.thenCall target (some cb2) none) (setRef s r [.unit])
          rw [hE] at hih
          simp only [renCall, Option.map_some', Option.map_none'] at hih
          rw [hih]
          simp [renRes, renVal]
        | cons a l =>
          simp [renVals, renRes, renVal]
    | resolve f v =>
      simp [renCall, exec, renRes, renVal, pushTask_ren, renTask]
    | reject f v =>
      simp [renCall, exec, renRes, renVal, pushTask_ren, renTask]
    | allLoop self r cnt rest =>
      cases rest with
      | nil => simp [renCall, exec, renRes, renVal]
      | cons i rest' =>
        simp only [renCall, exec]
        rcases hE : exec n (.thenCall i (some (.allCb self r cnt)) none) s with ⟨r1, s1⟩
        have hih := ih (.thenCall i (some (.allCb self r cnt)) none) s
        rw [hE] at hih
        simp only [renCall, renCallback, Option.map_some', Option.map_none'] at hih
        rw [hih]
        cases r1 with
        | error e =>
          simp only [renRes]
          simpa [renCall] using ih (.allLoop self r cnt rest') s1
        | ok w =>
          cases w with
          | fut c1 =>
            simp only [renRes, renVal]
            rcases hE2 : exec n (.catchCall c1 (some (.rejectOf self))) s1 with ⟨r2, s2⟩
            have hih2 := ih (.catchCall c1 (some (.rejectOf self))) s1
            rw [hE2] at hih2
            simp only [renCall, renCallback, Option.map_some', Option.map_none'] at hih2
            rw [hih2]
            simpa [renCall] using ih (.allLoop self r cnt rest') s2
          | unit =>
            simp only [renRes, renVal]
            simpa [renCall] using ih (.allLoop self r cnt rest') s1
          | num m =>
            simp only [renRes, renVal]
            simpa [renCall] using ih (.allLoop self r cnt rest') s1
          | str a =>
            simp only [renRes, renVal]
            simpa [renCall] using ih (.allLoop self r cnt rest') s1
          | list l =>
            simp only [renRes, renVal]
            simpa [renCall] using ih (.allLoop self r cnt rest') s1
          | exn m =>
            simp only [renRes, renVal]
            simpa [renCall] using ih (.allLoop self r cnt rest') s1
    | raceLoop self rest =>
      cases rest with
      | nil => simp [renCall, exec, renRes, renVal]
      | cons i rest' =>
        simp only [renCall, exec]
        rcases hE : exec n (.thenCall i (some (.resolveOf self)) none) s with ⟨r1, s1⟩
        have hih := ih (.thenCall i (some (.resolveOf self)) none) s
        rw [hE] at hih
        simp only [renCall, renCallback, Option.map_some', Option.map_none'] at hih
        rw [hih]
        cases r1 with
        | error e =>
          simp only [renRes]
          simpa [renCall] using ih (.raceLoop self rest') s1
        | ok w =>
          cases w with
          | fut c1 =>
            simp only [renRes, renVal]
            rcases hE2 : exec n (.catchCall c1 (some (.rejectOf self))) s1 with ⟨r2, s2⟩
            have hih2 := ih (.catchCall c1 (some (.rejectOf self))) s1
            rw [hE2] at hih2
            simp only [renCall, renCallback, Option.map_some', Option.map_none'] at hih2
            rw [hih2]
            simpa [renCall] using ih (.raceLoop self rest') s2
          | unit =>
            simp only [renRes, renVal]
            simpa [renCall] using ih (.raceLoop self rest') s1
          | num m =>
            simp only [renRes, renVal]
            simpa [renCall] using ih (.raceLoop self rest') s1
          | str a =>
            simp only [renRes, renVal]
            simpa [renCall] using ih (.raceLoop self rest') s1
          | list l =>
            simp only [renRes, renVal]
            simpa [renCall] using ih (.raceLoop self rest') s1
          | exn m =>
            simp only [renRes, renVal]
            simpa [renCall] using ih (.raceLoop self rest') s1
    | settleTask t =>
      cases t with
      | settle f v st =>
        simp only [renCall, renTask, exec, getF_ren]
        cases hg : getF s f with
        | none => simp [renRes, renVal]
        | some o =>
          simp only [Option.map_some', renObj_status]
          cases hst : o.status with
          | fulfilled => simp [renRes, renVal]
          | rejected => simp [renRes, renVal]
          | pending =>
            simp only [isThenable_ren]
            cases v with
            | fut b =>
              simp only [isThenable, if_true, renVal]
              simpa [renCall, renCallback] using
                ih (.thenCall b (some (.resolveOf f)) (some (.rejectOf f))) s
            | unit =>
              simp only [isThenable, Bool.false_eq_true, if_false]
              have key : setF (renState ρ s) f
                  ⟨st, renVal ρ .unit, (renObj ρ o).handlers⟩
                  = renState ρ (setF s f ⟨st, .unit, o.handlers⟩) := by
                simp [setF, renState, List.map_set, renObj]
              rw [key]
              simpa [renCall] using ih (.executeHandlers f) (setF s f ⟨st, .unit, o.handlers⟩)
            | num k =>
              simp only [isThenable, Bool.false_eq_true, if_false]
              have key : setF (renState ρ s) f
                  ⟨st, renVal ρ (.num k), (renObj ρ o).handlers⟩
                  = renState ρ (setF s f ⟨st, .num k, o.handlers⟩) := by
                simp [setF, renState, List.map_set, renObj]
              rw [key]
              simpa [renCall] using ih (.executeHandlers f) (setF s f ⟨st, .num k, o.handlers⟩)
            | str a =>
              simp only [isThenable, Bool.false_eq_true, if_false]
              have key : setF (renState ρ s) f
                  ⟨st, renVal ρ (.str a), (renObj ρ o).handlers⟩
                  = renState ρ (setF s f ⟨st, .str a, o.handlers⟩) := by
                simp [setF, renState, List.map_set, renObj]
              rw [key]
              simpa [renCall] using ih (.executeHandlers f) (setF s f ⟨st, .str a, o.handlers⟩)
            | list l =>
              simp only [isThenable, Bool.false_eq_true, if_false]
              have key : setF (renState ρ s) f
                  ⟨st, renVal ρ (.list l), (renObj ρ o).handlers⟩
                  = renState ρ (setF s f ⟨st, .list l, o.handlers⟩) := by
                simp [setF, renState, List.map_set, renObj]
              rw [key]
              simpa [renCall] using ih (.executeHandlers f) (setF s f ⟨st, .list l, o.handlers⟩)
            | exn m =>
              simp only [isThenable, Bool.false_eq_true, if_false]
              have key : setF (renState ρ s) f
                  ⟨st, renVal ρ (.exn m), (renObj ρ o).handlers⟩
                  = renState ρ (setF s f ⟨st, .exn m, o.handlers⟩) := by
                simp [setF, renState, List.map_set, renObj]
              rw [key]
              simpa [renCall] using ih (.executeHandlers f) (setF s f ⟨st, .exn m, o.handlers⟩)

/-- `doCall` commutes with payload renamings. -/
theorem doCall_ren (ρ : Ren) (fuel : Nat) (c : Call) (s : State) :
    doCall fuel (renCall ρ c) (renState ρ s) = renState ρ (doCall fuel c s) := by
  simp [doCall, exec_ren]

/-- The event loop commutes with payload renamings. -/
theorem drainWith_ren (ρ : Ren) (fuel : Nat) :
    ∀ (m : Nat) (s : State), drainWith fuel m (renState ρ s) = renState ρ (drainWith fuel m s) := by
  intro m
  induction m with
  | zero => intro s; rfl
  | succ m ih =>
    intro s
    simp only [drainWith, renState_tasks]
    cases ht : s.tasks with
    | nil => simp
    | cons t rest =>
      simp only [List.map_cons]
      have hstep : ({ renState ρ s with tasks := rest.map (renTask ρ) } : State)
          = renState ρ { s with tasks := rest } := rfl
      rw [hstep]
      have hx := exec_ren ρ fuel (.settleTask t) { s with tasks := rest }
      simp only [renCall] at hx
      rw [hx]
      exact ih _

/-- `drain` commutes with payload renamings. -/
theorem drain_ren (ρ : Ren) (n : Nat) (s : State) :
    drain n (renState ρ s) = renState ρ (drain n s) :=
  drainWith_ren ρ n n s

/-- Status and value observation after a renaming. -/
theorem statusValueAt_ren (ρ : Ren) (s : State) (i : Nat) :
    statusValueAt (renState ρ s) i
      = (statusValueAt s i).map (fun p => (p.1, renVal ρ p.2)) := by
  simp only [statusValueAt, getF_ren]
  cases getF s i <;> simp

/-- `fulfillTurn` commutes with payload renamings. -/
theorem fulfillTurn_ren (ρ : Ren) (f : Nat) (v : Val) (s : State) :
    fulfillTurn f (renVal ρ v) (renState ρ s) = renState ρ (fulfillTurn f v s) := by
  unfold fulfillTurn
  have h1 : doCall 10 (.resolve f (renVal ρ v)) (renState ρ s)
      = renState ρ (doCall 10 (.resolve f v) s) := by
    have := doCall_ren ρ 10 (.resolve f v) s
    simpa [renCall] using this
  rw [h1, drain_ren]

/-- `rejectTurn` commutes with payload renamings. -/
theorem rejectTurn_ren (ρ : Ren) (f : Nat) (v : Val) (s : State) :
    rejectTurn f (renVal ρ v) (renState ρ s) = renState ρ (rejectTurn f v s) := by
  unfold rejectTurn
  have h1 : doCall 10 (.reject f (renVal ρ v)) (renState ρ s)
      = renState ρ (doCall 10 (.reject f v) s) := by
    have := doCall_ren ρ 10 (.reject f v) s
    simpa [renCall] using this
  rw [h1, drain_ren]

/-- The state built by `Future.all([0,1,2])` over three pending external
futures, as an explicit literal (checked by `rfl`). -/
theorem allS3_val : allS3 =
    ⟨[⟨.pending, Val.unit, [⟨0, (some (Callback.allCb 3 0 3)), none, 4⟩]⟩,
      ⟨.pending, Val.unit, [⟨2, (some (Callback.allCb 3 0 3)), none, 6⟩]⟩,
      ⟨.pending, Val.unit, [⟨4, (some (Callback.allCb 3 0 3)), none, 8⟩]⟩,
      ⟨.pending, Val.unit, []⟩,
      ⟨.pending, Val.unit, [⟨1, none, (some (Callback.rejectOf 3)), 5⟩]⟩,
      ⟨.pending, Val.unit, []⟩,
      ⟨.pending, Val.unit, [⟨3, none, (some (Callback.rejectOf 3)), 7⟩]⟩,
      ⟨.pending, Val.unit, []⟩,
      ⟨.pending, Val.unit, [⟨5, none, (some (Callback.rejectOf 3)), 9⟩]⟩,
      ⟨.pending, Val.unit, []⟩], [], [[]], [], [], 6⟩ := rfl

/-- The `all` setup state carries no numeric or string payloads, so every
renaming fixes it. -/
theorem renState_allS3 (ρ : Ren) : renState ρ allS3 = allS3 := by
  rw [allS3_val]
  simp [renState, renObj, renHandler, renCallback, renVal, renVals]

/-- The state built by `Future.race([0,1])` over two pending external
futures, as an explicit literal (checked by `rfl`). -/
theorem raceS2_val : raceS2 =
    ⟨[⟨.pending, Val.unit, [⟨0, (some (Callback.resolveOf 2)), none, 3⟩]⟩,
      ⟨.pending, Val.unit, [⟨2, (some (Callback.resolveOf 2)), none, 5⟩]⟩,
      ⟨.pending, Val.unit, []⟩,
      ⟨.pending, Val.unit, [⟨1, none, (some (Callback.rejectOf 2)), 4⟩]⟩,
      ⟨.pending, Val.unit, []⟩,
      ⟨.pending, Val.unit, [⟨3, none, (some (Callback.rejectOf 2)), 6⟩]⟩,
      ⟨.pending, Val.unit, []⟩], [], [], [], [], 4⟩ := rfl

/-- The `race` setup state carries no numeric or string payloads, so every
renaming fixes it. -/
theorem renState_raceS2 (ρ : Ren) : renState ρ raceS2 = raceS2 := by
  rw [raceS2_val]
  simp [renState, renObj, renHandler, renCallback, renVal, renVals]

/-! ### `Bail` simulates `Future` -/

@[simp] theorem bgetF_map (s : State) (i : Nat) :
    bgetF (mapState s) i = (getF s i).map mapObj := by
  simp [bgetF, getF, mapState, List.getElem?_map]

theorem bsetF_map (s : State) (i : Nat) (o : FutureObj) :
    bsetF (mapState s) i (mapObj o) = mapState (setF s i o) := by
  simp [bsetF, setF, mapState, List.map_set]

theorem bpushTask_map (s : State) (t : Task) :
    bpushTask (mapState s) (mapTask t) = mapState (pushTask s t) := by
  simp [bpushTask, pushTask, mapState]

@[simp] theorem bgetRef_map (s : State) (r : Nat) :
    bgetRef (mapState s) r = getRef s r := rfl

theorem bsetRef_map (s : State) (r : Nat) (vs : List Val) :
    bsetRef (mapState s) r vs = mapState (setRef s r vs) := by
  simp [bsetRef, setRef, mapState]

@[simp] theorem mapState_futures (s : State) :
    (mapState s).futures = s.futures.map mapObj := rfl

@[simp] theorem mapState_tasks (s : State) :
    (mapState s).tasks = s.tasks.map mapTask := rfl

@[simp] theorem mapState_refsf (s : State) : (mapState s).refs = s.refs := rfl

@[simp] theorem mapState_vlogf (s : State) : (mapState s).vlog = s.vlog := rfl

@[simp] theorem mapState_dlogf (s : State) : (mapState s).dlog = s.dlog := rfl

@[simp] theorem mapState_nextH (s : State) : (mapState s).nextH = s.nextH := rfl

@[simp] theorem mapState_futures_length (s : State) :
    (mapState s).futures.length = s.futures.length := by simp

@[simp] theorem mapState_refs_length (s : State) :
    (mapState s).refs.length = s.refs.length := rfl

@[simp] theorem mapObj_status (o : FutureObj) :
    (mapObj o).status = mapStatus o.status := rfl

@[simp] theorem mapObj_value (o : FutureObj) : (mapObj o).value = o.value := rfl

@[simp] theorem mapObj_handlers (o : FutureObj) :
    (mapObj o).handlers = o.handlers := rfl

@[simp] theorem mapStatus_pending : mapStatus .pending = .pending := rfl

@[simp] theorem mapStatus_fulfilled : mapStatus .fulfilled = .fulfilled := rfl

@[simp] theorem mapStatus_rejected : mapStatus .rejected = .rejected := rfl

/-- The constructor body of `Bail` overwrites the dead `'Pending'`
field-initializer value: the object it leaves behind is exactly the one
the `Future` constructor builds. -/
theorem bailCtorInit_eq : bailCtorInit = ⟨.pending, .unit, []⟩ := rfl

theorem mapState_construct (s : State) :
    ({ mapState s with futures := (mapState s).futures ++ [bailCtorInit] } : BState)
      = mapState { s with futures := s.futures ++ [⟨.pending, .unit, []⟩] } := by
  simp [mapState, mapObj, mapStatus, bailCtorInit_eq]

theorem mapState_newRef (s : State) :
    ({ mapState s with refs := (mapState s).refs ++ [[]] } : BState)
      = mapState { s with refs := s.refs ++ [[]] } := rfl

theorem mapState_construct_allR (s : State) :
    ({ mapState s with
        futures := (mapState s).futures ++ [bailCtorInit],
        refs := (mapState s).refs ++ [[]] } : BState)
      = mapState { s with futures := s.futures ++ [⟨.pending, .unit, []⟩],
                          refs := s.refs ++ [[]] } := by
  simp [mapState, mapObj, mapStatus, bailCtorInit_eq]

theorem mapState_bumpH (s : State) :
    ({ mapState s with nextH := (mapState s).nextH + 1 } : BState)
      = mapState { s with nextH := s.nextH + 1 } := rfl

theorem mapState_dlogPush (s : State) (k : Nat) :
    ({ mapState s with dlog := (mapState s).dlog ++ [k] } : BState)
      = mapState { s with dlog := s.dlog ++ [k] } := rfl

theorem mapState_vlogPush (s : State) (v : Val) :
    ({ mapState s with vlog := (mapState s).vlog ++ [v] } : BState)
      = mapState { s with vlog := s.vlog ++ [v] } := rfl

/-- The `Bail` interpreter simulates the `Future` interpreter: running a
mapped operation on a mapped state gives the same outcome and the mapped
state.  The dead `pendingLit` status is not in the image of the map and
is overwritten during construction, so it never influences a run. -/
theorem bexec_map :
    ∀ (n : Nat) (c : Call) (s : State),
      bexec n (mapCall c) (mapState s)
        = ((exec n c s).1, mapState (exec n c s).2) := by
  intro n
  induction n with
  | zero => intro c s; rfl
  | succ n ih =>
    intro c s
    cases c with
    | construct rsv =>
      simp only [mapCall, bexec, exec]
      rw [mapState_construct]
      simp only [mapState_futures_length]
      cases rsv with
      | ext => simp
      | thenR p cbF cbR =>
        simp only []
        rcases hE : exec n (.addHandler p cbF cbR s.futures.length)
            { s with futures := s.futures ++ [⟨.pending, .unit, []⟩] } with ⟨r1, sx⟩
        have hih := ih (.addHandler p cbF cbR s.futures.length)
          { s with futures := s.futures ++ [⟨.pending, .unit, []⟩] }
        rw [hE] at hih
        simp only [mapCall] at hih
        rw [hih]
        cases r1 with
        | ok w => simp
        | error e =>
          simp only []
          have hih2 := ih (.reject s.futures.length e) sx
          simp only [mapCall] at hih2
          rw [hih2]
      | allR inputs =>
        simp only []
        rw [mapState_construct_allR]
        simp only [mapState_refs_length]
        rcases hE : exec n (.allLoop s.futures.length s.refs.length inputs.length inputs)
            { s with futures := s.futures ++ [⟨.pending, .unit, []⟩],
                     refs := s.refs ++ [[]] } with ⟨r1, sx⟩
        have hih := ih (.allLoop s.futures.length s.refs.length inputs.length inputs)
          { s with futures := s.futures ++ [⟨.pending, .unit, []⟩],
                   refs := s.refs ++ [[]] }
        rw [hE] at hih
        simp only [mapCall] at hih
        rw [hih]
        cases r1 with
        | ok w => simp
        | error e =>
          simp only []
          have hih2 := ih (.reject s.futures.length e) sx
          simp only [mapCall] at hih2
          rw [hih2]
      | raceR inputs =>
        simp only []
        rcases hE : exec n (.raceLoop s.futures.length inputs)
            { s with futures := s.futures ++ [⟨.pending, .unit, []⟩] } with ⟨r1, sx⟩
        have hih := ih (.raceLoop s.futures.length inputs)
          { s with futures := s.futures ++ [⟨.pending, .unit, []⟩] }
        rw [hE] at hih
        simp only [mapCall] at hih
        rw [hih]
        cases r1 with
        | ok w => simp
        | error e =>
          simp only []
          have hih2 := ih (.reject s.futures.length e) sx
          simp only [mapCall] at hih2
          rw [hih2]
      | resolveWith v =>
        simp only []
        rcases hE : exec n (.resolve s.futures.length v)
            { s with futures := s.futures ++ [⟨.pending, .unit, []⟩] } with ⟨r1, sx⟩
        have hih := ih (.resolve s.futures.length v)
          { s with futures := s.futures ++ [⟨.pending, .unit, []⟩] }
        rw [hE] at hih
        simp only [mapCall] at hih
        rw [hih]
        cases r1 with
        | ok w => simp
        | error e =>
          simp only []
          have hih2 := ih (.reject s.futures.length e) sx
          simp only [mapCall] at hih2
          rw [hih2]
      | rejectWith v =>
        simp only []
        rcases hE : exec n (.reject s.futures.length v)
            { s with futures := s.futures ++ [⟨.pending, .unit, []⟩] } with ⟨r1, sx⟩
        have hih := ih (.reject s.futures.length v)
          { s with futures := s.futures ++ [⟨.pending, .unit, []⟩] }
        rw [hE] at hih
        simp only [mapCall] at hih
        rw [hih]
        cases r1 with
        | ok w => simp
        | error e =>
          simp only []
          have hih2 := ih (.reject s.futures.length e) sx
          simp only [mapCall] at hih2
          rw [hih2]
      | throwR v =>
        simp only []
        have hih2 := ih (.reject s.futures.length v)
          { s with futures := s.futures ++ [⟨.pending, .unit, []⟩] }
        simp only [mapCall] at hih2
        rw [hih2]
    | thenCall p cbF cbR =>
      simpa [mapCall, bexec, exec] using ih (.construct (.thenR p cbF cbR)) s
    | catchCall p cb =>
      simpa [mapCall, bexec, exec] using ih (.thenCall p none cb) s
    | addHandler f cbF cbR child =>
      simp only [mapCall, bexec, exec, bgetF_map]
      cases hg : getF s f with
      | none => simp
      | some o =>
        simp only [Option.map_some']
        have key : (bsetF { mapState s with nextH := (mapState s).nextH + 1 } f
            { mapObj o with handlers := (mapObj o).handlers
                ++ [⟨(mapState s).nextH, cbF, cbR, child⟩] })
            = mapState (setF { s with nextH := s.nextH + 1 } f
              { o with handlers := o.handlers ++ [⟨s.nextH, cbF, cbR, child⟩] }) := by
          simp [bsetF, setF, mapState, List.map_set, mapObj]
        rw [key]
        simpa [mapCall] using ih (.executeHandlers f)
          (setF { s with nextH := s.nextH + 1 } f
            { o with handlers := o.handlers ++ [⟨s.nextH, cbF, cbR, child⟩] })
    | executeHandlers f =>
      simp only [mapCall, bexec, exec, bgetF_map]
      cases hg : getF s f with
      | none => simp
      | some o =>
        simp only [Option.map_some', mapObj_status]
        cases hst : o.status with
        | pending => simp [mapStatus]
        | fulfilled =>
          rcases hE : exec n (.handlersLoop f o.handlers) s with ⟨r1, s1⟩
          have hih := ih (.handlersLoop f o.handlers) s
          rw [hE] at hih
          simp only [mapCall] at hih
          simp only [mapObj_handlers, mapStatus]
          rw [hih]
          simp only [bgetF_map]
          cases hg2 : getF s1 f with
          | none => simp
          | some o2 =>
            have key : bsetF (mapState s1) f ⟨mapStatus o2.status, o2.value, []⟩
                = mapState (setF s1 f ⟨o2.status, o2.value, []⟩) := by
              simp [bsetF, setF, mapState, List.map_set, mapObj]
            simp [key]
        | rejected =>
          rcases hE : exec n (.handlersLoop f o.handlers) s with ⟨r1, s1⟩
          have hih := ih (.handlersLoop f o.handlers) s
          rw [hE] at hih
          simp only [mapCall] at hih
          simp only [mapObj_handlers, mapStatus]
          rw [hih]
          simp only [bgetF_map]
          cases hg2 : getF s1 f with
          | none => simp
          | some o2 =>
            have key : bsetF (mapState s1) f ⟨mapStatus o2.status, o2.value, []⟩
                = mapState (setF s1 f ⟨o2.status, o2.value, []⟩) := by
              simp [bsetF, setF, mapState, List.map_set, mapObj]
            simp [key]
    | handlersLoop f hs =>
      simp only [mapCall, bexec, exec]
      cases hs with
      | nil => simp
      | cons h rest =>
        simp only [bgetF_map]
        cases hg : getF s f with
        | none => simp
        | some o =>
          simp only [Option.map_some', mapObj_status, mapObj_value]
          rcases hE : exec n (.runHandler h o.status o.value) s with ⟨r1, s1⟩
          have hih := ih (.runHandler h o.status o.value) s
          rw [hE] at hih
          simp only [mapCall] at hih
          rw [hih]
          simpa [mapCall] using ih (.handlersLoop f rest) s1
    | runHandler h st v =>
      simp only [mapCall, bexec, exec]
      rw [mapState_dlogPush]
      cases st with
      | pending => simp [mapStatus]
      | fulfilled =>
        simp only [mapStatus]
        cases hcb : h.cbF with
        | none =>
          simpa [mapCall] using ih (.resolve h.child v) { s with dlog := s.dlog ++ [h.hid] }
        | some cb =>
          simp only []
          rcases hE : exec n (.runCallback cb v) { s with dlog := s.dlog ++ [h.hid] }
            with ⟨r1, s1⟩
          have hih := ih (.runCallback cb v) { s with dlog := s.dlog ++ [h.hid] }
          rw [hE] at hih
          simp only [mapCall] at hih
          rw [hih]
          cases r1 with
          | ok rv =>
            simpa [mapCall] using ih (.resolve h.child rv) s1
          | error e =>
            simpa [mapCall] using ih (.reject h.child e) s1
      | rejected =>
        simp only [mapStatus]
        cases hcb : h.cbR with
        | none =>
          rcases hE : exec n (.reject h.child v) { s with dlog := s.dlog ++ [h.hid] }
            with ⟨r1, s1⟩
          have hih := ih (.reject h.child v) { s with dlog := s.dlog ++ [h.hid] }
          rw [hE] at hih
          simp only [mapCall] at hih
          rw [hih]
          simpa [mapCall] using ih (.reject h.child (.exn "TypeError")) s1
        | some cb =>
          simp only []
          rcases hE : exec n (.runCallback cb v) { s with dlog := s.dlog ++ [h.hid] }
            with ⟨r1, s1⟩
          have hih := ih (.runCallback cb v) { s with dlog := s.dlog ++ [h.hid] }
          rw [hE] at hih
          simp only [mapCall] at hih
          rw [hih]
          cases r1 with
          | ok rv =>
            simpa [mapCall] using ih (.reject h.child rv) s1
          | error e =>
            simpa [mapCall] using ih (.reject h.child e) s1
    | runCallback cb v =>
      cases cb with
      | resolveOf f =>
        simpa [mapCall, bexec, exec] using ih (.resolve f v) s
      | rejectOf f =>
        simpa [mapCall, bexec, exec] using ih (.reject f v) s
      | allCb agg r cnt =>
        simp only [mapCall, bexec, exec, bgetRef_map]
        have hy : bsetRef (mapState s) r (getRef s r ++ [v])
            = mapState (setRef s r (getRef s r ++ [v])) := bsetRef_map s r _
        rw [hy]
        by_cases hl : (getRef s r ++ [v]).length = cnt
        · simp only [if_pos hl]
          have hih := ih (.resolve agg (.list (getRef s r ++ [v])))
            (setRef s r (getRef s r ++ [v]))
          simp only [mapCall] at hih
          rw [hih]
        · simp only [if_neg hl]
      | const w => simp [mapCall, bexec, exec]
      | throwv e => simp [mapCall, bexec, exec]
      | logv t =>
        simp only [mapCall, bexec, exec]
        rw [mapState_vlogPush]
      | thenOnce r target cb2 =>
        simp only [mapCall, bexec, exec, bgetRef_map]
        cases hr : getRef s r with
        | nil =>
          have hy : bsetRef (mapState s) r [.unit]
              = mapState (setRef s r [.unit]) := bsetRef_map s r _
          rw [hy]
          rcases hE : exec n (.thenCall target (some cb2) none) (setRef s r [.unit])
            with ⟨r1, s1⟩
          have hih := ih (.thenCall target (some cb2) none) (setRef s r [.unit])
          rw [hE] at hih
          simp only [mapCall] at hih
          rw [hih]
        | cons a l => simp
    | resolve f v =>
      simp [mapCall, bexec, exec, bpushTask, pushTask, mapState, mapTask, mapStatus]
    | reject f v =>
      simp [mapCall, bexec, exec, bpushTask, pushTask, mapState, mapTask, mapStatus]
    | allLoop self r cnt rest =>
      cases rest with
      | nil => simp [mapCall, bexec, exec]
      | cons i rest' =>
        simp only [mapCall, bexec, exec]
        rcases hE : exec n (.thenCall i (some (.allCb self r cnt)) none) s with ⟨r1, s1⟩
        have hih := ih (.thenCall i (some (.allCb self r cnt)) none) s
        rw [hE] at hih
        simp only [mapCall] at hih
        rw [hih]
        cases r1 with
        | error e =>
          simpa [mapCall] using ih (.allLoop self r cnt rest') s1
        | ok w =>
          cases w with
          | fut c1 =>
            simp only []
            rcases hE2 : exec n (.catchCall c1 (some (.rejectOf self))) s1 with ⟨r2, s2⟩
            have hih2 := ih (.catchCall c1 (some (.rejectOf self))) s1
            rw [hE2] at hih2
            simp only [mapCall] at hih2
            rw [hih2]
            simpa [mapCall] using ih (.allLoop self r cnt rest') s2
          | unit =>
            simpa [mapCall] using ih (.allLoop self r cnt rest') s1
          | num m =>
            simpa [mapCall] using ih (.allLoop self r cnt rest') s1
          | str a =>
            simpa [mapCall] using ih (.allLoop self r cnt rest') s1
          | list l =>
            simpa [mapCall] using ih (.allLoop self r cnt rest') s1
          | exn m =>
            simpa [mapCall] using ih (.allLoop self r cnt rest') s1
    | raceLoop self rest =>
      cases rest with
      | nil => simp [mapCall, bexec, exec]
      | cons i rest' =>
        simp only [mapCall, bexec, exec]
        rcases hE : exec n (.thenCall i (some (.resolveOf self)) none) s with ⟨r1, s1⟩
        have hih := ih (.thenCall i (some (.resolveOf self)) none) s
        rw [hE] at hih
        simp only [mapCall] at hih
        rw [hih]
        cases r1 with
        | error e =>
          simpa [mapCall] using ih (.raceLoop self rest') s1
        | ok w =>
          cases w with
          | fut c1 =>
            simp only []
            rcases hE2 : exec n (.catchCall c1 (some (.rejectOf self))) s1 with ⟨r2, s2⟩
            have hih2 := ih (.catchCall c1 (some (.rejectOf self))) s1
            rw [hE2] at hih2
            simp only [mapCall] at hih2
            rw [hih2]
            simpa [mapCall] using ih (.raceLoop self rest') s2
          | unit =>
            simpa [mapCall] using ih (.raceLoop self rest') s1
          | num m =>
            simpa [mapCall] using ih (.raceLoop self rest') s1
          | str a =>
            simpa [mapCall] using ih (.raceLoop self rest') s1
          | list l =>
            simpa [mapCall] using ih (.raceLoop self rest') s1
          | exn m =>
            simpa [mapCall] using ih (.raceLoop self rest') s1
    | settleTask t =>
      cases t with
      | settle f v st =>
        simp only [mapCall, mapTask, bexec, exec, bgetF_map]
        cases hg : getF s f with
        | none => simp
        | some o =>
          simp only [Option.map_some', mapObj_status]
          cases hst : o.status with
          | fulfilled => simp [mapStatus]
          | rejected => simp [mapStatus]
          | pending =>
            simp only [mapStatus_pending]
            cases v with
            | fut b =>
              simp only [isThenable, if_true]
              simpa [mapCall] using
                ih (.thenCall b (some (.resolveOf f)) (some (.rejectOf f))) s
            | unit =>
              simp only [isThenable, Bool.false_eq_true, if_false]
              have key : bsetF (mapState s) f
                  ⟨mapStatus st, .unit, (mapObj o).handlers⟩
                  = mapState (setF s f ⟨st, .unit, o.handlers⟩) := by
                simp [bsetF, setF, mapState, List.map_set, mapObj]
              rw [key]
              simpa [mapCall] using ih (.executeHandlers f) (setF s f ⟨st, .unit, o.handlers⟩)
            | num k =>
              simp only [isThenable, Bool.false_eq_true, if_false]
              have key : bsetF (mapState s) f
                  ⟨mapStatus st, .num k, (mapObj o).handlers⟩
                  = mapState (setF s f ⟨st, .num k, o.handlers⟩) := by
                simp [bsetF, setF, mapState, List.map_set, mapObj]
              rw [key]
              simpa [mapCall] using ih (.executeHandlers f) (setF s f ⟨st, .num k, o.handlers⟩)
            | str a =>
              simp only [isThenable, Bool.false_eq_true, if_false]
              have key : bsetF (mapState s) f
                  ⟨mapStatus st, .str a, (mapObj o).handlers⟩
                  = mapState (setF s f ⟨st, .str a, o.handlers⟩) := by
                simp [bsetF, setF, mapState, List.map_set, mapObj]
              rw [key]
              simpa [mapCall] using ih (.executeHandlers f) (setF s f ⟨st, .str a, o.handlers⟩)
            | list l =>
              simp only [isThenable, Bool.false_eq_true, if_false]
              have key : bsetF (mapState s) f
                  ⟨mapStatus st, .list l, (mapObj o).handlers⟩
                  = mapState (setF s f ⟨st, .list l, o.handlers⟩) := by
                simp [bsetF, setF, mapState, List.map_set, mapObj]
              rw [key]
              simpa [mapCall] using ih (.executeHandlers f) (setF s f ⟨st, .list l, o.handlers⟩)
            | exn m =>
              simp only [isThenable, Bool.false_eq_true, if_false]
              have key : bsetF (mapState s) f
                  ⟨mapStatus st, .exn m, (mapObj o).handlers⟩
                  = mapState (setF s f ⟨st, .exn m, o.handlers⟩) := by
                simp [bsetF, setF, mapState, List.map_set, mapObj]
              rw [key]
              simpa [mapCall] using ih (.executeHandlers f) (setF s f ⟨st, .exn m, o.handlers⟩)

/-- `bdoCall` simulates `doCall`. -/
theorem bdoCall_map (fuel : Nat) (c : Call) (s : State) :
    bdoCall fuel (mapCall c) (mapState s) = mapState (doCall fuel c s) := by
  simp [bdoCall, doCall, bexec_map]

/-- The `Bail` event loop simulates the `Future` event loop. -/
theorem bdrainWith_map (fuel : Nat) :
    ∀ (m : Nat) (s : State),
      bdrainWith fuel m (mapState s) = mapState (drainWith fuel m s) := by
  intro m
  induction m with
  | zero => intro s; rfl
  | succ m ih =>
    intro s
    simp only [bdrainWith, drainWith, mapState_tasks]
    cases ht : s.tasks with
    | nil => simp
    | cons t rest =>
      simp only [List.map_cons]
      have hstep : ({ mapState s with tasks := rest.map mapTask } : BState)
          = mapState { s with tasks := rest } := rfl
      rw [hstep]
      have hx := bexec_map fuel (.settleTask t) { s with tasks := rest }
      simp only [mapCall] at hx
      rw [hx]
      exact ih _

/-- `bdrain` simulates `drain`. -/
theorem bdrain_map (n : Nat) (s : State) :
    bdrain n (mapState s) = mapState (drain n s) := bdrainWith_map n n s

/-- Status and value observation through the simulation map. -/
theorem bstatusValueAt_map (s : State) (i : Nat) :
    bstatusValueAt (mapState s) i
      = (statusValueAt s i).map (fun p => (mapStatus p.1, p.2)) := by
  simp only [bstatusValueAt, statusValueAt, bgetF_map]
  cases getF s i <;> simp

/-! ## Claim theorems -/

/-- C1 (amended): once a future is settled (status `Fulfilled` or
`Rejected`), every subsequent `settleFulfilled`/`settleRejected` call —
and every other operation and event-loop run — leaves its status and
value unchanged.  (The original claim also asserted that a call made
while the future is still pending after an earlier resolve-with-a-future
is a no-op; the counterexample refutes that part.) -/
theorem claim_C1_settled_frozen (n m : Nat) (c : Call) (s : State) :
    preservesSettled s (exec n c s).2 ∧ preservesSettled s (drainWith n m s) :=
  ⟨exec_preservesSettled n c s, drainWith_preservesSettled n m s⟩

theorem claim_C1_settled_frozen_witness :
    statusValueAt (exec 10 (.resolve 0 (.num 9)) (settledOne .fulfilled (.num 7))).2 0
        = some (.fulfilled, .num 7) ∧
    statusValueAt (drainWith 10 5 (settledOne .fulfilled (.num 7))) 0
        = some (.fulfilled, .num 7) :=
  ⟨(claim_C1_settled_frozen 10 5 (.resolve 0 (.num 9)) (settledOne .fulfilled (.num 7))).1
      0 .fulfilled (.num 7) rfl (by decide),
   (claim_C1_settled_frozen 10 5 (.resolve 0 (.num 9)) (settledOne .fulfilled (.num 7))).2
      0 .fulfilled (.num 7) rfl (by decide)⟩

/-- C1 counterexample: resolve future `0` first with future `1` and then
with the plain value `7` — the second call, also made while the future is
still pending, is *not* a no-op: it settles the future with `7`, whereas
with the first call alone the future would adopt future `1` and fulfill
with `42`.  So it is not true that only the first settle call made while
pending has an effect. -/
theorem claim_C1_cx :
    statusValueAt (drain 30 (doCall 10 (.resolve 1 (.num 42)) (drain 30
        (doCall 10 (.resolve 0 (.num 7)) (doCall 10 (.resolve 0 (.fut 1)) twoExt))))) 0
      = some (.fulfilled, .num 7) ∧
    statusValueAt (drain 30 (doCall 10 (.resolve 1 (.num 42)) (drain 30
        (doCall 10 (.resolve 0 (.fut 1)) twoExt)))) 0
      = some (.fulfilled, .num 42) :=
  ⟨rfl, rfl⟩

/-- C2: resolving future `0` with future `1`, future `1` with future `2`,
and future `2` with any plain value `x` makes future `0` fulfill with that
value itself — not with future `1` or future `2` — through transitive
thenable adoption. -/
theorem claim_C2_flattening (x : Int) :
    statusValueAt (drain 30 (doCall 10 (.resolve 2 (.num x)) (doCall 10 (.resolve 1 (.fut 2))
        (doCall 10 (.resolve 0 (.fut 1)) threeExt)))) 0 = some (.fulfilled, .num x) ∧
    Val.num x ≠ .fut 1 ∧ Val.num x ≠ .fut 2 := by
  refine ⟨?_, fun h => Val.noConfusion h, fun h => Val.noConfusion h⟩
  have key : drain 30 (doCall 10 (.resolve 2 (.num x)) (doCall 10 (.resolve 1 (.fut 2))
        (doCall 10 (.resolve 0 (.fut 1)) threeExt)))
      = renState ⟨fun _ => x, id⟩ (drain 30 (doCall 10 (.resolve 2 (.num 0))
        (doCall 10 (.resolve 1 (.fut 2)) (doCall 10 (.resolve 0 (.fut 1)) threeExt)))) := by
    rw [← drain_ren, ← doCall_ren, ← doCall_ren, ← doCall_ren]
    rfl
  rw [key, statusValueAt_ren]
  rfl

/-- C3 (amended): handlers registered via `then` before settlement are
delivered in registration order when the future settles, each exactly
once (the delivery log gains exactly `[0, 1, 2]`, the three handler ids
in registration order), and the queue is cleared — provided no handler
callback itself registers a further handler on the same future during
delivery (the counterexample shows a reentrant callback causes repeated
delivery). -/
theorem claim_C3_handler_order (a b c : String) (x : Int) :
    (drain 40 (doCall 10 (.resolve 0 (.num x))
      (doCall 20 (.thenCall 0 (some (.logv (.str c))) none)
      (doCall 20 (.thenCall 0 (some (.logv (.str b))) none)
      (doCall 20 (.thenCall 0 (some (.logv (.str a))) none) oneExt))))).dlog = [0, 1, 2] ∧
    (drain 40 (doCall 10 (.resolve 0 (.num x))
      (doCall 20 (.thenCall 0 (some (.logv (.str c))) none)
      (doCall 20 (.thenCall 0 (some (.logv (.str b))) none)
      (doCall 20 (.thenCall 0 (some (.logv (.str a))) none) oneExt))))).vlog
      = [.list [.str a, .num x], .list [.str b, .num x], .list [.str c, .num x]] ∧
    (getF (drain 40 (doCall 10 (.resolve 0 (.num x))
      (doCall 20 (.thenCall 0 (some (.logv (.str c))) none)
      (doCall 20 (.thenCall 0 (some (.logv (.str b))) none)
      (doCall 20 (.thenCall 0 (some (.logv (.str a))) none) oneExt))))) 0).map
        FutureObj.handlers = some [] := by
  have key : drain 40 (doCall 10 (.resolve 0 (.num x))
      (doCall 20 (.thenCall 0 (some (.logv (.str c))) none)
      (doCall 20 (.thenCall 0 (some (.logv (.str b))) none)
      (doCall 20 (.thenCall 0 (some (.logv (.str a))) none) oneExt))))
      = renState ⟨fun _ => x, fun t => if t = "h1" then a else if t = "h2" then b else c⟩
        (drain 40 (doCall 10 (.resolve 0 (.num 0))
          (doCall 20 (.thenCall 0 (some (.logv (.str "h3"))) none)
          (doCall 20 (.thenCall 0 (some (.logv (.str "h2"))) none)
          (doCall 20 (.thenCall 0 (some (.logv (.str "h1"))) none) oneExt))))) := by
    rw [← drain_ren, ← doCall_ren, ← doCall_ren, ← doCall_ren, ← doCall_ren]
    rfl
  refine ⟨?_, ?_, ?_⟩
  · rw [key, renState_dlog]
    rfl
  · rw [key, renState_vlogf]
    rfl
  · rw [key, getF_ren]
    rfl

/-- C4: for a parent fulfilled with a plain value `x`, `then` behaves as
claimed: with no `onFulfill` the child fulfills with `x` unchanged; an
`onFulfill` returning a plain `y` fulfills the child with `y`; one
throwing `a` rejects the child with `a`; one returning a future leaves
the child pending until that future settles and then adopts its
outcome `y`. -/
theorem claim_C4_then_on_fulfilled (x y : Int) (a : String) :
    statusValueAt (drain 30 (doCall 20 (.thenCall 0 none none)
      (settledOne .fulfilled (.num x)))) 1 = some (.fulfilled, .num x) ∧
    statusValueAt (drain 30 (doCall 20 (.thenCall 0 (some (.const (.num y))) none)
      (settledOne .fulfilled (.num x)))) 1 = some (.fulfilled, .num y) ∧
    statusValueAt (drain 30 (doCall 20 (.thenCall 0 (some (.throwv (.str a))) none)
      (settledOne .fulfilled (.num x)))) 1 = some (.rejected, .str a) ∧
    statusValueAt (drain 30 (doCall 20 (.thenCall 0 (some (.const (.fut 1))) none)
      (fulfillTurn 0 (.num x) twoExt))) 2 = some (.pending, .unit) ∧
    statusValueAt (fulfillTurn 1 (.num y) (drain 30 (doCall 20
      (.thenCall 0 (some (.const (.fut 1))) none)
      (fulfillTurn 0 (.num x) twoExt)))) 2 = some (.fulfilled, .num y) := by
  have key1 : drain 30 (doCall 20 (.thenCall 0 none none) (settledOne .fulfilled (.num x)))
      = renState ⟨fun _ => x, id⟩
        (drain 30 (doCall 20 (.thenCall 0 none none) (settledOne .fulfilled (.num 0)))) := by
    rw [← drain_ren, ← doCall_ren]
    rfl
  have key2 : drain 30 (doCall 20 (.thenCall 0 (some (.const (.num y))) none)
        (settledOne .fulfilled (.num x)))
      = renState ⟨fun k => if k = 0 then x else y, id⟩
        (drain 30 (doCall 20 (.thenCall 0 (some (.const (.num 1))) none)
          (settledOne .fulfilled (.num 0)))) := by
    rw [← drain_ren, ← doCall_ren]
    rfl
  have key3 : drain 30 (doCall 20 (.thenCall 0 (some (.throwv (.str a))) none)
        (settledOne .fulfilled (.num x)))
      = renState ⟨fun _ => x, fun _ => a⟩
        (drain 30 (doCall 20 (.thenCall 0 (some (.throwv (.str "e"))) none)
          (settledOne .fulfilled (.num 0)))) := by
    rw [← drain_ren, ← doCall_ren]
    rfl
  have key4 : drain 30 (doCall 20 (.thenCall 0 (some (.const (.fut 1))) none)
        (fulfillTurn 0 (.num x) twoExt))
      = renState ⟨fun k => if k = 0 then x else y, id⟩
        (drain 30 (doCall 20 (.thenCall 0 (some (.const (.fut 1))) none)
          (fulfillTurn 0 (.num 0) twoExt))) := by
    rw [← drain_ren, ← doCall_ren, ← fulfillTurn_ren]
    rfl
  have key5 : fulfillTurn 1 (.num y) (drain 30 (doCall 20
        (.thenCall 0 (some (.const (.fut 1))) none) (fulfillTurn 0 (.num x) twoExt)))
      = renState ⟨fun k => if k = 0 then x else y, id⟩
        (fulfillTurn 1 (.num 1) (drain 30 (doCall 20
          (.thenCall 0 (some (.const (.fut 1))) none) (fulfillTurn 0 (.num 0) twoExt)))) := by
    rw [← fulfillTurn_ren, ← drain_ren, ← doCall_ren, ← fulfillTurn_ren]
    rfl
  refine ⟨?_, ?_, ?_, ?_, ?_⟩
  · rw [key1, statusValueAt_ren]
    rfl
  · rw [key2, statusValueAt_ren]
    rfl
  · rw [key3, statusValueAt_ren]
    rfl
  · rw [key4, statusValueAt_ren]
    rfl
  · rw [key5, statusValueAt_ren]
    rfl

/-- C6: a parent future rejected with reason `a` (reasons of settled
futures are never thenable, by `exec_settledNotThenable`) propagates `a`
unchanged through `then` without an `onReject` — whether or not an
`onFulfill` is supplied — through `catch` without a handler, and through
a chain of two handlerless `then` calls. -/
theorem claim_C6_reject_passthrough (a : String) (y : Int) :
    statusValueAt (drain 30 (doCall 20 (.thenCall 0 (some (.const (.num y))) none)
      (settledOne .rejected (.str a)))) 1 = some (.rejected, .str a) ∧
    statusValueAt (drain 30 (doCall 20 (.thenCall 0 none none)
      (settledOne .rejected (.str a)))) 1 = some (.rejected, .str a) ∧
    statusValueAt (drain 30 (doCall 20 (.catchCall 0 none)
      (settledOne .rejected (.str a)))) 1 = some (.rejected, .str a) ∧
    statusValueAt (drain 30 (doCall 20 (.thenCall 1 none none)
      (drain 30 (doCall 20 (.thenCall 0 none none)
        (settledOne .rejected (.str a)))))) 2 = some (.rejected, .str a) := by
  have key1 : drain 30 (doCall 20 (.thenCall 0 (some (.const (.num y))) none)
        (settledOne .rejected (.str a)))
      = renState ⟨fun _ => y, fun _ => a⟩
        (drain 30 (doCall 20 (.thenCall 0 (some (.const (.num 0))) none)
          (settledOne .rejected (.str "e")))) := by
    rw [← drain_ren, ← doCall_ren]
    rfl
  have key2 : drain 30 (doCall 20 (.thenCall 0 none none) (settledOne .rejected (.str a)))
      = renState ⟨fun _ => y, fun _ => a⟩
        (drain 30 (doCall 20 (.thenCall 0 none none) (settledOne .rejected (.str "e")))) := by
    rw [← drain_ren, ← doCall_ren]
    rfl
  have key3 : drain 30 (doCall 20 (.catchCall 0 none) (settledOne .rejected (.str a)))
      = renState ⟨fun _ => y, fun _ => a⟩
        (drain 30 (doCall 20 (.catchCall 0 none) (settledOne .rejected (.str "e")))) := by
    rw [← drain_ren, ← doCall_ren]
    rfl
  have key4 : drain 30 (doCall 20 (.thenCall 1 none none)
        (drain 30 (doCall 20 (.thenCall 0 none none) (settledOne .rejected (.str a)))))
      = renState ⟨fun _ => y, fun _ => a⟩
        (drain 30 (doCall 20 (.thenCall 1 none none)
          (drain 30 (doCall 20 (.thenCall 0 none none)
            (settledOne .rejected (.str "e")))))) := by
    rw [← drain_ren, ← doCall_ren, ← drain_ren, ← doCall_ren]
    rfl
  refine ⟨?_, ?_, ?_, ?_⟩
  · rw [key1, statusValueAt_ren]
    rfl
  · rw [key2, statusValueAt_ren]
    rfl
  · rw [key3, statusValueAt_ren]
    rfl
  · rw [key4, statusValueAt_ren]
    rfl

/-- C7: `all` over the three external inputs rejects with the reason of
the first input to reject: with input `0` fulfilling `x`, input `1` then
rejecting `a`, and input `2` fulfilling `z` afterwards, the aggregate is
rejected with `a` — the later fulfillment has no effect on it; and when
two inputs reject in the same turn, the first rejecter's reason wins. -/
theorem claim_C7_all_first_rejection (x z : Int) (a b c : String) :
    statusValueAt (fulfillTurn 2 (.num z) (rejectTurn 1 (.str a)
      (fulfillTurn 0 (.num x) allS3))) 3 = some (.rejected, .str a) ∧
    statusValueAt (drain 40 (doCall 10 (.reject 1 (.str c))
      (doCall 10 (.reject 0 (.str b)) allS3))) 3 = some (.rejected, .str b) := by
  have key1 : fulfillTurn 2 (.num z) (rejectTurn 1 (.str a) (fulfillTurn 0 (.num x) allS3))
      = renState ⟨fun k => if k = 0 then x else z, fun _ => a⟩
        (fulfillTurn 2 (.num 1) (rejectTurn 1 (.str "e") (fulfillTurn 0 (.num 0) allS3))) := by
    rw [← fulfillTurn_ren, ← rejectTurn_ren, ← fulfillTurn_ren, renState_allS3]
    first
    | rfl
    | simp [renVal]
  have key2 : drain 40 (doCall 10 (.reject 1 (.str c)) (doCall 10 (.reject 0 (.str b)) allS3))
      = renState ⟨id, fun t => if t = "e1" then b else c⟩
        (drain 40 (doCall 10 (.reject 1 (.str "e2"))
          (doCall 10 (.reject 0 (.str "e1")) allS3))) := by
    rw [← drain_ren, ← doCall_ren, ← doCall_ren, renState_allS3]
    first
    | rfl
    | simp [renVal]
  refine ⟨?_, ?_⟩
  · rw [key1, statusValueAt_ren]
    rfl
  · rw [key2, statusValueAt_ren]
    rfl

/-- C8: when every input of `all` fulfills, the aggregate fulfills with
one value per input in completion order, not input order: completing in
the order `2, 1, 0` with plain values `z, y, x` yields `[z, y, x]`; the
spec's instance (inputs `1, 2, 3` completing in reverse order) yields
`[3, 2, 1]`; and all six completion orders append in completion order. -/
theorem claim_C8_all_completion_order (x y z : Int) :
    statusValueAt (fulfillTurn 0 (.num x) (fulfillTurn 1 (.num y)
      (fulfillTurn 2 (.num z) allS3))) 3
      = some (.fulfilled, .list [.num z, .num y, .num x]) ∧
    statusValueAt (allRunOrder [2, 1, 0]) 3
      = some (.fulfilled, .list [.num 3, .num 2, .num 1]) ∧
    (∀ p ∈ [[0, 1, 2], [0, 2, 1], [1, 0, 2], [1, 2, 0], [2, 0, 1], [2, 1, 0]],
      statusValueAt (allRunOrder p) 3
        = some (.fulfilled, .list (p.map fun i => .num (Int.ofNat (i + 1))))) := by
  have key : fulfillTurn 0 (.num x) (fulfillTurn 1 (.num y) (fulfillTurn 2 (.num z) allS3))
      = renState ⟨fun k => if k = 0 then x else if k = 1 then y else z, id⟩
        (fulfillTurn 0 (.num 0) (fulfillTurn 1 (.num 1) (fulfillTurn 2 (.num 2) allS3))) := by
    rw [← fulfillTurn_ren, ← fulfillTurn_ren, ← fulfillTurn_ren, renState_allS3]
    first
    | rfl
    | simp [renVal]
  refine ⟨?_, rfl, ?_⟩
  · rw [key, statusValueAt_ren]
    rfl
  · intro p hp
    fin_cases hp <;> rfl

/-- C9 (amended): `race` settles with the outcome of whichever input
settles first, in either direction, when the input settlements occur in
separate event-loop turns.  (The original claim held this for all
schedules; the counterexample shows a same-turn fulfillment can beat an
earlier rejection, because rejection reaches the aggregate through one
extra deferred hop.) -/
theorem claim_C9_race_first_settler (a b : String) :
    statusValueAt (fulfillTurn 1 (.str b) (fulfillTurn 0 (.str a) raceS2)) 2
      = some (.fulfilled, .str a) ∧
    statusValueAt (rejectTurn 1 (.str b) (fulfillTurn 0 (.str a) raceS2)) 2
      = some (.fulfilled, .str a) ∧
    statusValueAt (fulfillTurn 1 (.str b) (rejectTurn 0 (.str a) raceS2)) 2
      = some (.rejected, .str a) ∧
    statusValueAt (rejectTurn 1 (.str b) (rejectTurn 0 (.str a) raceS2)) 2
      = some (.rejected, .str a) := by
  have key1 : fulfillTurn 1 (.str b) (fulfillTurn 0 (.str a) raceS2)
      = renState ⟨id, fun t => if t = "f" then a else b⟩
        (fulfillTurn 1 (.str "s") (fulfillTurn 0 (.str "f") raceS2)) := by
    rw [← fulfillTurn_ren, ← fulfillTurn_ren, renState_raceS2]
    first
    | rfl
    | simp [renVal]
  have key2 : rejectTurn 1 (.str b) (fulfillTurn 0 (.str a) raceS2)
      = renState ⟨id, fun t => if t = "f" then a else b⟩
        (rejectTurn 1 (.str "s") (fulfillTurn 0 (.str "f") raceS2)) := by
    rw [← rejectTurn_ren, ← fulfillTurn_ren, renState_raceS2]
    first
    | rfl
    | simp [renVal]
  have key3 : fulfillTurn 1 (.str b) (rejectTurn 0 (.str a) raceS2)
      = renState ⟨id, fun t => if t = "f" then a else b⟩
        (fulfillTurn 1 (.str "s") (rejectTurn 0 (.str "f") raceS2)) := by
    rw [← fulfillTurn_ren, ← rejectTurn_ren, renState_raceS2]
    first
    | rfl
    | simp [renVal]
  have key4 : rejectTurn 1 (.str b) (rejectTurn 0 (.str a) raceS2)
      = renState ⟨id, fun t => if t = "f" then a else b⟩
        (rejectTurn 1 (.str "s") (rejectTurn 0 (.str "f") raceS2)) := by
    rw [← rejectTurn_ren, ← rejectTurn_ren, renState_raceS2]
    first
    | rfl
    | simp [renVal]
  refine ⟨?_, ?_, ?_, ?_⟩
  · rw [key1, statusValueAt_ren]
    rfl
  · rw [key2, statusValueAt_ren]
    rfl
  · rw [key3, statusValueAt_ren]
    rfl
  · rw [key4, statusValueAt_ren]
    rfl

/-- C3 counterexample: handler `0` (whose callback calls `then` on the
same future once, registering handler `2`) and handler `1` are registered
before settlement; on settlement the delivery log is `[0, 0, 1, 2, 1]` —
handlers `0` and `1` are each delivered twice (the reentrant `then` call
re-drains the queue, and the outer `forEach` continues over its original
range), and the logging callback of handler `1` observably runs twice.
So handlers are not always delivered exactly once. -/
theorem claim_C3_cx :
    let s := drain 40 (doCall 10 (.resolve 0 (.num 5))
      (doCall 20 (.thenCall 0 (some (.logv (.str "h2"))) none)
      (doCall 20 (.thenCall 0 (some (.thenOnce 0 0 (.logv (.str "g")))) none)
        reentrantStart)))
    s.dlog = [0, 0, 1, 2, 1] ∧
    s.vlog = [.list [.str "h2", .num 5], .list [.str "g", .num 5],
              .list [.str "h2", .num 5]] :=
  ⟨rfl, rfl⟩

/-- C5 (amended): a status change triggered in a synchronous turn is not
observable within that turn: no synchronous operation (construction,
`then`/`catch`, `addHandler`, the settle capabilities, callbacks) changes
the status or the value of any future — settle calls only schedule a
deferred task, and statuses mutate only when the event loop runs it.
(The original claim additionally asserted that handler callbacks never
run within the registering turn; the counterexample refutes that for a
handler registered on an already settled future.) -/
theorem claim_C5_sync_no_settlement (n : Nat) (c : Call) (s : State)
    (hc : SyncCall c) : preservesStatusValue s (exec n c s).2 :=
  exec_sync_preservesStatusValue n c s hc

theorem claim_C5_sync_no_settlement_witness :
    statusValueAt (exec 10 (.resolve 0 (.num 3)) oneExt).2 0 = some (.pending, .unit) :=
  claim_C5_sync_no_settlement 10 (.resolve 0 (.num 3)) oneExt
    (fun t h => Call.noConfusion h) 0 (.pending, .unit) rfl

/-- C5 counterexample: on an already settled future (quiescent: no queued
tasks, empty log), a synchronous `then` call runs the supplied handler
callback within the call itself — the observation log grows although no
event-loop task ran — so handler callbacks can run before the current
synchronous turn completes. -/
theorem claim_C5_cx :
    let s := drain 30 (doCall 10 (.resolve 0 (.num 5)) oneExt)
    s.vlog = [] ∧ s.tasks = [] ∧
    (doCall 20 (.thenCall 0 (some (.logv (.str "obs"))) none) s).vlog
      = [.list [.str "obs", .num 5]] :=
  ⟨rfl, rfl, rfl⟩

/-- C9 counterexample: input `0` rejects and input `1` fulfills with both
settle calls in the same turn.  After the first event-loop task input `0`
is already rejected while input `1` is still pending — input `0` settles
first — yet the race aggregate ends *fulfilled* with input `1`'s value,
because the rejection travels through the extra `then`-child hop.  So
`race` does not always settle with the outcome of the first input to
settle. -/
theorem claim_C9_cx :
    let s := doCall 10 (.resolve 1 (.str "late"))
      (doCall 10 (.reject 0 (.str "bad")) raceS2)
    statusValueAt (drainWith 20 1 s) 0 = some (.rejected, .str "bad") ∧
    statusValueAt (drainWith 20 1 s) 1 = some (.pending, .unit) ∧
    statusValueAt (drain 40 s) 2 = some (.fulfilled, .str "late") ∧
    statusValueAt (drain 40 s) 0 = some (.rejected, .str "bad") :=
  ⟨rfl, rfl, rfl, rfl⟩


/-- C10: class `Bail` is behaviorally equivalent to class `Future`.  The
map `mapStatus`/`mapState`/`mapCall` sends every `Future` configuration to
the corresponding `Bail` configuration; it is the identity on values,
handlers, tasks orders, logs and the handler counter, and a bijection
between the three `Future` statuses and the three live `Bail` statuses.
Under this map the two interpreters agree step for step: every operation
returns the same outcome and related states, the event loops agree, and
the observable status/value of every object agrees, starting from the
related empty states.  The dead `'Pending'` field-initializer value of
`Bail` (`pendingLit`, overwritten by the constructor body — see
`bailCtorInit`) is outside the image of the map, so no run ever observes
it. -/
theorem claim_C10_bail_equivalent (n : Nat) (c : Call) (s : State) (i : Nat) :
    bexec n (mapCall c) (mapState s) = ((exec n c s).1, mapState (exec n c s).2)
    ∧ bdrain n (mapState s) = mapState (drain n s)
    ∧ bstatusValueAt (bdrain n (bdoCall n (mapCall c) (mapState s))) i
        = (statusValueAt (drain n (doCall n c s)) i).map (fun p => (mapStatus p.1, p.2))
    ∧ mapState initState = binitState
    ∧ (∀ st st', mapStatus st = mapStatus st' → st = st')
    ∧ (∀ st, mapStatus st ≠ .pendingLit) := by
  refine ⟨bexec_map n c s, bdrain_map n s, ?_, rfl, ?_, ?_⟩
  · rw [bdoCall_map, bdrain_map, bstatusValueAt_map]
  · intro st st' heq
    cases st <;> cases st' <;> simp_all
  · intro st
    cases st <;> decide
